import Mathlib

/-!
Verification of the fact-extraction and aggregation core of the
asia-filings-mcp-server repository (Japan EDINET / Korea DART filings).

The JavaScript sources are shallowly embedded:
* JS strings become `List Char`; JS numbers become exact rationals `ℚ`
  (the algorithms only add, subtract, divide and compare);
* `null`/`undefined` become `Option`;
* JS objects become structures; object spreads become explicit merges;
* `Array.prototype.sort` (stable since ES2019) is modelled by insertion sort;
* presentational fields (`formatCurrency` display strings) are omitted.

All definitions are structural recursions so that concrete runs reduce by
`decide` / `rfl`.
-/

namespace AsiaFilings

/-- The characters matched by the JavaScript regular-expression class `\s`
(whitespace and line terminators), used by `String.prototype.trim` and the
`replace(/\s/g, '')` step of `parseFactValue`. -/
def isJsWs (c : Char) : Bool :=
  c = ' ' || c = '\t' || c = '\n' || c = '\r' || c = '\x0b' || c = '\x0c' ||
  c = '\u00A0' || c = '\u1680' || ('\u2000' ≤ c && c ≤ '\u200A') ||
  c = '\u2028' || c = '\u2029' || c = '\u202F' || c = '\u205F' ||
  c = '\u3000' || c = '\uFEFF'

/-- JS `String.prototype.trim`: drop leading and trailing whitespace. -/
def jsTrim (l : List Char) : List Char :=
  ((l.dropWhile isJsWs).reverse.dropWhile isJsWs).reverse

/-- Does the character list start with the given first character?
Models JS `String.prototype.startsWith` for a one-character argument. -/
def headIs (c : Char) : List Char → Bool
  | [] => false
  | a :: _ => a = c

/-- `startsWith hay needle`: `needle` occurs at the start of `hay`. -/
def startsWith : List Char → List Char → Bool
  | _, [] => true
  | [], _ :: _ => false
  | h :: hs, n :: ns => h = n && startsWith hs ns

/-- `hasSub hay needle`: `needle` occurs contiguously somewhere in `hay`.
Models JS `String.prototype.includes`. -/
def hasSub : List Char → List Char → Bool
  | [], needle => needle.isEmpty
  | h :: t, needle => startsWith (h :: t) needle || hasSub t needle

/-- JS `String.prototype.toLowerCase`, restricted to ASCII case mapping
(the keyword tables only contain ASCII letters and CJK/Hangul characters,
which have no case). -/
def toLowerL (l : List Char) : List Char := l.map Char.toLower

/-- Code-unit lexicographic order on strings, the order used by
`Array.prototype.sort()` without a comparator. -/
def lexLe : List Char → List Char → Bool
  | [], _ => true
  | _ :: _, [] => false
  | a :: as, b :: bs => if a = b then lexLe as bs else decide (a < b)

/-- Deduplication keeping first occurrences, with an accumulator of already
seen values (models `[...new Set(xs)]`). -/
def dedupFirstAux (seen : List (List Char)) : List (List Char) → List (List Char)
  | [] => []
  | x :: xs =>
    if x ∈ seen then dedupFirstAux seen xs
    else x :: dedupFirstAux (x :: seen) xs

/-- `[...new Set(xs)]`: keep the first occurrence of each value. -/
def dedupFirst (xs : List (List Char)) : List (List Char) := dedupFirstAux [] xs

/-- Insert into a sorted list in front of the first element not below the
inserted one, according to the boolean comparison `le`. -/
def insertLe {α : Type} (le : α → α → Bool) (a : α) : List α → List α
  | [] => [a]
  | b :: l => if le a b then a :: b :: l else b :: insertLe le a l

/-- Insertion sort by the boolean comparison `le`; models the observable
result of `Array.prototype.sort` with the corresponding comparator. -/
def sortByLe {α : Type} (le : α → α → Bool) : List α → List α
  | [] => []
  | a :: l => insertLe le a (sortByLe le l)

theorem mem_insertLe {α : Type} (le : α → α → Bool) (a x : α) (l : List α) :
    x ∈ insertLe le a l ↔ x = a ∨ x ∈ l := by
  induction l with
  | nil => simp [insertLe]
  | cons b t ih =>
    by_cases h : le a b = true
    · simp [insertLe, h]
    · simp only [insertLe, if_neg h, List.mem_cons, ih]
      tauto

theorem mem_sortByLe {α : Type} (le : α → α → Bool) (x : α) (l : List α) :
    x ∈ sortByLe le l ↔ x ∈ l := by
  induction l with
  | nil => simp [sortByLe]
  | cons a t ih => simp [sortByLe, mem_insertLe, ih]

theorem length_insertLe {α : Type} (le : α → α → Bool) (a : α) (l : List α) :
    (insertLe le a l).length = l.length + 1 := by
  induction l with
  | nil => simp [insertLe]
  | cons b t ih =>
    by_cases h : le a b = true
    · simp [insertLe, h]
    · simp [insertLe, h, ih]

theorem length_sortByLe {α : Type} (le : α → α → Bool) (l : List α) :
    (sortByLe le l).length = l.length := by
  induction l with
  | nil => rfl
  | cons a t ih => simp [sortByLe, length_insertLe, ih]

theorem countP_insertLe {α : Type} (le : α → α → Bool) (p : α → Bool) (a : α)
    (l : List α) : (insertLe le a l).countP p = (a :: l).countP p := by
  induction l with
  | nil => simp [insertLe]
  | cons b t ih =>
    by_cases h : le a b = true
    · simp [insertLe, h]
    · simp only [insertLe, if_neg h, List.countP_cons, ih]
      split_ifs <;> omega

theorem countP_sortByLe {α : Type} (le : α → α → Bool) (p : α → Bool)
    (l : List α) : (sortByLe le l).countP p = l.countP p := by
  induction l with
  | nil => rfl
  | cons a t ih =>
    rw [sortByLe, countP_insertLe, List.countP_cons, List.countP_cons, ih]

theorem foldl_add_insertLe {α : Type} (le : α → α → Bool) (f : α → ℚ)
    (a : α) (l : List α) (acc : ℚ) :
    (insertLe le a l).foldl (fun s x => s + f x) acc
      = ((a :: l).foldl (fun s x => s + f x) acc) := by
  induction l generalizing acc with
  | nil => simp [insertLe]
  | cons b t ih =>
    by_cases h : le a b = true
    · simp [insertLe, h]
    · simp only [insertLe, if_neg h, List.foldl_cons]
      rw [ih]
      simp only [List.foldl_cons]
      congr 1
      ring

theorem foldl_add_sortByLe {α : Type} (le : α → α → Bool) (f : α → ℚ)
    (l : List α) (acc : ℚ) :
    (sortByLe le l).foldl (fun s x => s + f x) acc
      = l.foldl (fun s x => s + f x) acc := by
  induction l generalizing acc with
  | nil => rfl
  | cons a t ih =>
    rw [sortByLe, foldl_add_insertLe]
    simp only [List.foldl_cons]
    exact ih _

theorem mem_dedupFirstAux (seen : List (List Char)) (xs : List (List Char))
    (x : List Char) :
    x ∈ dedupFirstAux seen xs ↔ x ∈ xs ∧ x ∉ seen := by
  induction xs generalizing seen with
  | nil => simp [dedupFirstAux]
  | cons a t ih =>
    by_cases h : a ∈ seen
    · simp only [dedupFirstAux, if_pos h, ih, List.mem_cons]
      constructor
      · rintro ⟨hx, hs⟩
        exact ⟨Or.inr hx, hs⟩
      · rintro ⟨hx | hx, hs⟩
        · exact absurd (hx ▸ h) hs
        · exact ⟨hx, hs⟩
    · simp only [dedupFirstAux, if_neg h, List.mem_cons, ih]
      constructor
      · rintro (rfl | ⟨hx, hs⟩)
        · exact ⟨Or.inl rfl, h⟩
        · exact ⟨Or.inr hx, fun hc => hs (Or.inr hc)⟩
      · rintro ⟨rfl | hx, hs⟩
        · exact Or.inl rfl
        · by_cases hxa : x = a
          · exact Or.inl hxa
          · refine Or.inr ⟨hx, fun hc => ?_⟩
            rcases hc with h1 | h2
            · exact hxa h1
            · exact hs h2

theorem mem_dedupFirst (xs : List (List Char)) (x : List Char) :
    x ∈ dedupFirst xs ↔ x ∈ xs := by
  simp [dedupFirst, mem_dedupFirstAux]

/-! ### Value parsing (`parseFactValue`, src/src/xbrl-parser.js lines 13-31)

`parseFloat` is modelled exactly: skip leading whitespace, optional sign,
either the literal `Infinity` or a decimal literal (integer digits, optional
fraction, optional exponent), taken as the longest valid prefix; anything
else yields NaN, modelled as `none`.  JS numbers are modelled as exact
rationals extended with the two infinities; NaN never flows into arithmetic
here because every NaN outcome is an early `none`. -/

/-- An ASCII decimal digit. -/
def isDigitCh (c : Char) : Bool := '0' ≤ c && c ≤ '9'

/-- Numeric value of an ASCII digit character. -/
def digitVal (c : Char) : Nat := c.toNat - '0'.toNat

/-- Value of a most-significant-first digit string. -/
def digitsToNat (l : List Char) : Nat := l.foldl (fun a c => a * 10 + digitVal c) 0

/-- A JavaScript number that is not NaN: a finite rational or an infinity. -/
inductive JSNum : Type
  | fin (q : ℚ)
  | posInf
  | negInf
deriving DecidableEq

/-- JS unary minus on a non-NaN number. -/
def jsNegNum : JSNum → JSNum
  | .fin q => .fin (-q)
  | .posInf => .negInf
  | .negInf => .posInf

/-- Optional leading sign of a numeric literal; returns the sign and the rest. -/
def parseSign (l : List Char) : ℚ × List Char :=
  match l with
  | [] => (1, [])
  | c :: r => if c = '+' then (1, r) else if c = '-' then (-1, r) else (1, c :: r)

/-- The characters of the literal `Infinity`. -/
def infinityChars : List Char := ['I', 'n', 'f', 'i', 'n', 'i', 't', 'y']

/-- Ten to an integer power, as an exact rational. -/
def pow10 : Int → ℚ
  | .ofNat k => ((10 ^ k : Nat) : ℚ)
  | .negSucc k => 1 / ((10 ^ (k + 1) : Nat) : ℚ)

/-- Optional exponent part of a decimal literal (`e`/`E`, optional sign,
digits); an `e` not followed by a digit is not part of the literal, so it
contributes exponent 0, exactly as `parseFloat` keeps only the longest valid
prefix. -/
def parseExponent (l : List Char) : Int :=
  match l with
  | [] => 0
  | c :: rest =>
    if c = 'e' ∨ c = 'E' then
      let sr : Int × List Char :=
        match rest with
        | [] => (1, [])
        | d :: r2 => if d = '+' then (1, r2) else if d = '-' then (-1, r2) else (1, d :: r2)
      let eD := sr.2.takeWhile isDigitCh
      if eD.isEmpty then 0 else sr.1 * (digitsToNat eD : Int)
    else 0

/-- JS `parseFloat` on a character list: `none` is NaN. -/
def jsParseFloat (l : List Char) : Option JSNum :=
  let l1 := l.dropWhile isJsWs
  let sl := parseSign l1
  if startsWith sl.2 infinityChars then
    some (if sl.1 = 1 then .posInf else .negInf)
  else
    let intD := sl.2.takeWhile isDigitCh
    let r1 := sl.2.dropWhile isDigitCh
    let fr : List Char × List Char :=
      match r1 with
      | '.' :: rest => (rest.takeWhile isDigitCh, rest.dropWhile isDigitCh)
      | _ => ([], r1)
    if intD.isEmpty && fr.1.isEmpty then none
    else
      let mant : ℚ := (digitsToNat intD : ℚ) + (digitsToNat fr.1 : ℚ) / ((10 ^ fr.1.length : Nat) : ℚ)
      some (.fin (sl.1 * mant * pow10 (parseExponent fr.2)))

/-- The cleaning pipeline of `parseFactValue`: `trim()`, then the three
global replacements removing `,`, every `\s` character, and the full-width
space (already in `\s`; kept to mirror the source). -/
def cleanedText (l : List Char) : List Char :=
  (((jsTrim l).filter (fun c => !(c = ','))).filter (fun c => !(isJsWs c))).filter
    (fun c => !(c = '　'))

/-- The negative-sign detection of `parseFactValue`, applied to the cleaned
text: an East-Asian negative glyph anywhere, or a leading ASCII minus. -/
def isNegFlag (l : List Char) : Bool :=
  let cleaned := cleanedText l
  cleaned.contains '△' || cleaned.contains '▲' || cleaned.contains '－' ||
    headIs '-' cleaned

/-- One of the characters removed by `replace(/[△▲－-]/g, '')`. -/
def isNegGlyph (c : Char) : Bool :=
  c = '△' || c = '▲' || c = '－' || c = '-'

/-- The cleaned text with every negative glyph removed; this is what is
handed to `parseFloat`. -/
def negStripped (l : List Char) : List Char :=
  (cleanedText l).filter (fun c => !(isNegGlyph c))

/-- A JavaScript value passed to `parseFactValue`: a string, or anything
that is not a string (covering `null`, `undefined`, numbers, objects — all
rejected by the `typeof` guard, and falsy non-strings by the `!text` guard). -/
inductive JSVal : Type
  | str (s : List Char)
  | nonString
deriving DecidableEq

/-- `parseFactValue` (src/src/xbrl-parser.js lines 13-31): trim and strip
separators, detect East-Asian / ASCII negative marks, strip them, parse the
rest with `parseFloat`, and negate the magnitude when a mark was present.
Total by construction — the JS source contains no throwing operation. -/
def parseFactValue : JSVal → Option JSNum
  | .nonString => none
  | .str l =>
    if l.isEmpty then none
    else
      match jsParseFloat (negStripped l) with
      | none => none
      | some v => some (if isNegFlag l then jsNegNum v else v)

/-- Least-significant-digit-first decimal digits of a positive number, with
explicit fuel to keep the recursion structural. -/
def digitsRevAux : Nat → Nat → List Char
  | _, 0 => []
  | 0, _ + 1 => []
  | f + 1, n + 1 => Nat.digitChar ((n + 1) % 10) :: digitsRevAux f ((n + 1) / 10)

/-- Most-significant-first decimal rendering of a natural number. -/
def natDigits (n : Nat) : List Char :=
  if n = 0 then ['0'] else (digitsRevAux n n).reverse

/-- Insert a comma after every three characters of a least-significant-first
digit list, never at the end. -/
def chunkRev : List Char → List Char
  | [] => []
  | [a] => [a]
  | [a, b] => [a, b]
  | [a, b, c] => [a, b, c]
  | a :: b :: c :: d :: rest => a :: b :: c :: ',' :: chunkRev (d :: rest)

/-- Comma-grouped decimal rendering of a natural number (groups of three
from the right), the `format` of the spec's round-trip property. -/
def commaFormat (n : Nat) : List Char :=
  (chunkRev (natDigits n).reverse).reverse

/-! ### Lemmas about digit strings and the cleaning pipeline -/

theorem digitsRevAux_zero (f : Nat) : digitsRevAux f 0 = [] := by
  cases f <;> rfl

theorem mem_digitsRevAux {f n : Nat} {c : Char} (h : c ∈ digitsRevAux f n) :
    ∃ d, d < 10 ∧ c = Nat.digitChar d := by
  induction f generalizing n with
  | zero => cases n <;> simp [digitsRevAux] at h
  | succ f ih =>
    cases n with
    | zero => simp [digitsRevAux] at h
    | succ m =>
      simp only [digitsRevAux, List.mem_cons] at h
      rcases h with rfl | h
      · exact ⟨(m + 1) % 10, Nat.mod_lt _ (by norm_num), rfl⟩
      · exact ih h

theorem mem_natDigits {n : Nat} {c : Char} (h : c ∈ natDigits n) :
    ∃ d, d < 10 ∧ c = Nat.digitChar d := by
  unfold natDigits at h
  split at h
  · simp only [List.mem_singleton] at h
    exact ⟨0, by norm_num, h⟩
  · exact mem_digitsRevAux (List.mem_reverse.mp h)

theorem natDigits_ne_nil (n : Nat) : natDigits n ≠ [] := by
  unfold natDigits
  split
  · simp
  · cases n with
    | zero => simp_all
    | succ m => simp [digitsRevAux]

/-- The finitely many decimal digit characters are ordinary digits for every
character class used by the parser. -/
theorem digitChar_class : ∀ d, d < 10 →
    isDigitCh (Nat.digitChar d) = true ∧ isJsWs (Nat.digitChar d) = false ∧
    isNegGlyph (Nat.digitChar d) = false ∧ Nat.digitChar d ≠ ',' ∧
    Nat.digitChar d ≠ '+' ∧ Nat.digitChar d ≠ '-' ∧ Nat.digitChar d ≠ 'I' ∧
    Nat.digitChar d ≠ '　' ∧ Nat.digitChar d ≠ '△' ∧ Nat.digitChar d ≠ '▲' ∧
    Nat.digitChar d ≠ '－' ∧ digitVal (Nat.digitChar d) = d := by decide

theorem foldr_digitsRevAux {f n : Nat} (h : n ≤ f) :
    (digitsRevAux f n).foldr (fun c a => a * 10 + digitVal c) 0 = n := by
  induction f generalizing n with
  | zero =>
    have : n = 0 := Nat.le_zero.mp h
    subst this
    simp [digitsRevAux]
  | succ f ih =>
    cases n with
    | zero => simp [digitsRevAux]
    | succ m =>
      simp only [digitsRevAux, List.foldr_cons]
      have hdiv : (m + 1) / 10 ≤ f := by
        have := Nat.div_lt_self (Nat.succ_pos m) (by norm_num : 1 < 10)
        omega
      rw [ih hdiv, (digitChar_class _ (Nat.mod_lt _ (by norm_num))).2.2.2.2.2.2.2.2.2.2.2]
      omega

theorem digitsToNat_natDigits (n : Nat) : digitsToNat (natDigits n) = n := by
  unfold natDigits
  split
  · simp_all [digitsToNat, digitVal]
  · rw [digitsToNat, List.foldl_reverse]
    exact foldr_digitsRevAux (Nat.le_refl n)

theorem dropWhile_eq_self_of {p : Char → Bool} {l : List Char}
    (h : ∀ c ∈ l, p c = false) : l.dropWhile p = l := by
  cases l with
  | nil => rfl
  | cons a t => simp [List.dropWhile_cons, h a (List.mem_cons_self a t)]

theorem jsTrim_eq_self {l : List Char} (h : ∀ c ∈ l, isJsWs c = false) :
    jsTrim l = l := by
  unfold jsTrim
  rw [dropWhile_eq_self_of h, dropWhile_eq_self_of (fun c hc => h c (List.mem_reverse.mp hc)),
    List.reverse_reverse]

theorem cleanedText_eq_self {l : List Char}
    (h : ∀ c ∈ l, isJsWs c = false ∧ c ≠ ',') : cleanedText l = l := by
  have h1 : List.filter (fun c => !(c = ',')) l = l :=
    List.filter_eq_self.mpr (fun c hc => by simp [(h c hc).2])
  have h2 : List.filter (fun c => !(isJsWs c)) l = l :=
    List.filter_eq_self.mpr (fun c hc => by simp [(h c hc).1])
  have h3 : List.filter (fun c => !(c = '　')) l = l :=
    List.filter_eq_self.mpr (fun c hc => by
      have hw := (h c hc).1
      simp only [Bool.not_eq_true', decide_eq_false_iff_not]
      intro hcon
      rw [hcon] at hw
      exact absurd hw (by decide))
  unfold cleanedText
  rw [jsTrim_eq_self (fun c hc => (h c hc).1), h1, h2, h3]

theorem jsParseFloat_digits {l : List Char} (hne : l ≠ [])
    (hd : ∀ c ∈ l, ∃ d, d < 10 ∧ c = Nat.digitChar d) :
    jsParseFloat l = some (.fin (digitsToNat l)) := by
  obtain ⟨c, t, rfl⟩ := List.exists_cons_of_ne_nil hne
  obtain ⟨d, hd10, hc⟩ := hd c (List.mem_cons_self c t)
  have hcls := digitChar_class d hd10
  have hdig : ∀ x ∈ c :: t, isDigitCh x = true := by
    intro x hx
    obtain ⟨e, he10, he⟩ := hd x hx
    exact he ▸ (digitChar_class e he10).1
  have h1 : (c :: t).dropWhile isJsWs = c :: t :=
    dropWhile_eq_self_of (fun x hx => by
      obtain ⟨e, he10, he⟩ := hd x hx
      exact he ▸ (digitChar_class e he10).2.1)
  have h2 : parseSign (c :: t) = (1, c :: t) := by
    rw [parseSign, if_neg (hc ▸ hcls.2.2.2.2.1), if_neg (hc ▸ hcls.2.2.2.2.2.1)]
  have h3 : startsWith (c :: t) infinityChars = false := by
    rw [infinityChars, startsWith]
    simp [hc ▸ hcls.2.2.2.2.2.2.1]
  have h4 : (c :: t).takeWhile isDigitCh = c :: t := List.takeWhile_eq_self_iff.mpr hdig
  have h5 : (c :: t).dropWhile isDigitCh = [] := List.dropWhile_eq_nil_iff.mpr hdig
  simp only [jsParseFloat, h1, h2, h3, h4, h5, Bool.false_eq_true, if_false]
  norm_num [parseExponent, pow10, digitsToNat]

theorem jsParseFloat_natDigits (n : Nat) :
    jsParseFloat (natDigits n) = some (.fin n) := by
  rw [jsParseFloat_digits (natDigits_ne_nil n) (fun c hc => mem_natDigits hc),
    digitsToNat_natDigits]

theorem chunkRev_ne_nil {l : List Char} (h : l ≠ []) : chunkRev l ≠ [] := by
  match l with
  | [a] => simp [chunkRev]
  | [a, b] => simp [chunkRev]
  | [a, b, c] => simp [chunkRev]
  | a :: b :: c :: d :: rest => simp [chunkRev]

theorem mem_chunkRev {l : List Char} {x : Char} (h : x ∈ chunkRev l) :
    x ∈ l ∨ x = ',' := by
  induction l using chunkRev.induct with
  | case1 => simp [chunkRev] at h
  | case2 a => simp [chunkRev] at h; simp [h]
  | case3 a b =>
    simp only [chunkRev, List.mem_cons, List.not_mem_nil, or_false] at h
    rcases h with rfl | rfl <;> simp
  | case4 a b c =>
    simp only [chunkRev, List.mem_cons, List.not_mem_nil, or_false] at h
    rcases h with rfl | rfl | rfl <;> simp
  | case5 a b c d rest ih =>
    simp only [chunkRev, List.mem_cons] at h
    rcases h with rfl | rfl | rfl | rfl | h
    · simp
    · simp
    · simp
    · simp
    · rcases ih h with hm | hm
      · simp only [List.mem_cons] at hm ⊢
        tauto
      · exact Or.inr hm

theorem filter_chunkRev {l : List Char} (h : ',' ∉ l) :
    (chunkRev l).filter (fun c => !(c = ',')) = l := by
  induction l using chunkRev.induct with
  | case1 => rfl
  | case2 a =>
    simp only [chunkRev, List.filter]
    simp only [List.mem_singleton] at h
    simp [Ne.symm h]
  | case3 a b =>
    simp only [List.mem_cons, not_or] at h
    simp [chunkRev, List.filter, Ne.symm h.1, Ne.symm h.2.1]
  | case4 a b c =>
    simp only [List.mem_cons, not_or] at h
    simp [chunkRev, List.filter, Ne.symm h.1, Ne.symm h.2.1, Ne.symm h.2.2.1]
  | case5 a b c d rest ih =>
    simp only [List.mem_cons, not_or] at h
    have ih2 := ih (by
      simp only [List.mem_cons, not_or]
      exact ⟨h.2.2.2.1, h.2.2.2.2⟩)
    simp [chunkRev, List.filter, Ne.symm h.1, Ne.symm h.2.1, Ne.symm h.2.2.1, ih2]

theorem mem_commaFormat {n : Nat} {c : Char} (h : c ∈ commaFormat n) :
    (∃ d, d < 10 ∧ c = Nat.digitChar d) ∨ c = ',' := by
  unfold commaFormat at h
  rcases mem_chunkRev (List.mem_reverse.mp h) with hm | hm
  · exact Or.inl (mem_natDigits (List.mem_reverse.mp hm))
  · exact Or.inr hm

theorem comma_not_mem_natDigits_reverse (n : Nat) : ',' ∉ (natDigits n).reverse := by
  intro hc
  obtain ⟨d, hd10, hd⟩ := mem_natDigits (List.mem_reverse.mp hc)
  exact (digitChar_class d hd10).2.2.2.1 hd.symm

theorem commaFormat_ne_nil (n : Nat) : commaFormat n ≠ [] := by
  unfold commaFormat
  simp only [ne_eq, List.reverse_eq_nil_iff]
  exact chunkRev_ne_nil (by
    simp only [ne_eq, List.reverse_eq_nil_iff]
    exact natDigits_ne_nil n)

theorem cleanedText_commaFormat (n : Nat) :
    cleanedText (commaFormat n) = natDigits n := by
  have hws : ∀ c ∈ commaFormat n, isJsWs c = false := by
    intro c hc
    rcases mem_commaFormat hc with ⟨d, hd10, rfl⟩ | rfl
    · exact (digitChar_class d hd10).2.1
    · decide
  have hD : ∀ c ∈ natDigits n, isJsWs c = false ∧ c ≠ '　' := by
    intro c hc
    obtain ⟨d, hd10, rfl⟩ := mem_natDigits hc
    exact ⟨(digitChar_class d hd10).2.1, (digitChar_class d hd10).2.2.2.2.2.2.2.1⟩
  have h2 : (commaFormat n).filter (fun c => !(c = ',')) = natDigits n := by
    unfold commaFormat
    rw [List.filter_reverse, filter_chunkRev (comma_not_mem_natDigits_reverse n),
      List.reverse_reverse]
  have h3 : (natDigits n).filter (fun c => !(isJsWs c)) = natDigits n :=
    List.filter_eq_self.mpr (fun c hc => by simp [(hD c hc).1])
  have h4 : (natDigits n).filter (fun c => !(c = '　')) = natDigits n :=
    List.filter_eq_self.mpr (fun c hc => by simp [(hD c hc).2])
  unfold cleanedText
  rw [jsTrim_eq_self hws, h2, h3, h4]

theorem mem_dropWhile_of {p : Char → Bool} {l : List Char} {c : Char}
    (hc : c ∈ l) (hp : p c = false) : c ∈ l.dropWhile p := by
  induction l with
  | nil => simp at hc
  | cons a t ih =>
    rw [List.dropWhile_cons]
    by_cases ha : p a = true
    · rw [if_pos ha]
      rcases List.mem_cons.mp hc with rfl | hmem
      · rw [hp] at ha
        exact absurd ha (by simp)
      · exact ih hmem
    · rw [if_neg ha]
      exact hc

theorem mem_cleanedText {l : List Char} {c : Char} (hc : c ∈ l)
    (hws : isJsWs c = false) (hcomma : c ≠ ',') : c ∈ cleanedText l := by
  have hfw : c ∈ jsTrim l := by
    unfold jsTrim
    rw [List.mem_reverse]
    exact mem_dropWhile_of (List.mem_reverse.mpr (mem_dropWhile_of hc hws)) hws
  have hfull : c ≠ '　' := by
    intro hcon
    rw [hcon] at hws
    exact absurd hws (by decide)
  unfold cleanedText
  refine List.mem_filter.mpr ⟨List.mem_filter.mpr ⟨List.mem_filter.mpr ⟨hfw, ?_⟩, ?_⟩, ?_⟩
  · simp [hcomma]
  · simp [hws]
  · simp [hfull]

theorem dropWhile_append_last {p : Char → Bool} {X : List Char} {d : Char}
    (hd : p d = false) : (X ++ [d]).dropWhile p = X.dropWhile p ++ [d] := by
  induction X with
  | nil => simp [List.dropWhile_cons, hd]
  | cons a t ih =>
    by_cases ha : p a = true
    · simp only [List.cons_append, List.dropWhile_cons, if_pos ha, ih]
    · simp only [List.cons_append, List.dropWhile_cons, if_neg ha]

theorem headIs_jsTrim {l : List Char} (h : headIs '-' l = true) :
    headIs '-' (jsTrim l) = true := by
  obtain ⟨t, rfl⟩ : ∃ t, l = '-' :: t := by
    cases l with
    | nil => simp [headIs] at h
    | cons a t =>
      rw [headIs, decide_eq_true_iff] at h
      exact ⟨t, by rw [h]⟩
  unfold jsTrim
  have h1 : ('-' :: t).dropWhile isJsWs = '-' :: t := by
    rw [List.dropWhile_cons, if_neg (by decide)]
  rw [h1, show ('-' :: t).reverse = t.reverse ++ ['-'] by simp,
    dropWhile_append_last (by decide), List.reverse_append]
  simp [headIs]

theorem headIs_filter {p : Char → Bool} {l : List Char}
    (h : headIs '-' l = true) (hp : p '-' = true) :
    headIs '-' (l.filter p) = true := by
  obtain ⟨t, rfl⟩ : ∃ t, l = '-' :: t := by
    cases l with
    | nil => simp [headIs] at h
    | cons a t =>
      rw [headIs, decide_eq_true_iff] at h
      exact ⟨t, by rw [h]⟩
  rw [List.filter_cons_of_pos hp]
  simp [headIs]

theorem headIs_cleanedText {l : List Char} (h : headIs '-' l = true) :
    headIs '-' (cleanedText l) = true := by
  unfold cleanedText
  exact headIs_filter (headIs_filter (headIs_filter (headIs_jsTrim h)
    (by decide)) (by decide)) (by decide)

theorem filter_glyph_natDigits (n : Nat) :
    (natDigits n).filter (fun c => !(isNegGlyph c)) = natDigits n :=
  List.filter_eq_self.mpr (fun c hc => by
    obtain ⟨d, hd10, rfl⟩ := mem_natDigits hc
    simp [(digitChar_class d hd10).2.2.1])

theorem natDigits_contains_glyph_false (n : Nat) {g : Char}
    (hg : isNegGlyph g = true) : (natDigits n).contains g = false := by
  have : g ∉ natDigits n := by
    intro hm
    obtain ⟨d, hd10, rfl⟩ := mem_natDigits hm
    rw [(digitChar_class d hd10).2.2.1] at hg
    exact absurd hg (by simp)
  simpa using this

theorem headIs_natDigits_false (n : Nat) : headIs '-' (natDigits n) = false := by
  cases hD : natDigits n with
  | nil => exact absurd hD (natDigits_ne_nil n)
  | cons c t =>
    have hc : c ∈ natDigits n := hD ▸ List.mem_cons_self c t
    obtain ⟨d, hd10, rfl⟩ := mem_natDigits hc
    simp [headIs, (digitChar_class d hd10).2.2.2.2.2.1]

theorem isNegFlag_commaFormat (n : Nat) : isNegFlag (commaFormat n) = false := by
  simp only [isNegFlag, cleanedText_commaFormat]
  rw [natDigits_contains_glyph_false n (by decide),
    natDigits_contains_glyph_false n (by decide),
    natDigits_contains_glyph_false n (by decide), headIs_natDigits_false]
  rfl

theorem negStripped_commaFormat (n : Nat) :
    negStripped (commaFormat n) = natDigits n := by
  unfold negStripped
  rw [cleanedText_commaFormat, filter_glyph_natDigits]

/-- Round trip through the comma-grouped rendering: the positive case. -/
theorem parseFactValue_commaFormat (n : Nat) :
    parseFactValue (.str (commaFormat n)) = some (.fin (n : ℚ)) := by
  have hne : (commaFormat n).isEmpty = false := by
    have := commaFormat_ne_nil n
    cases hC : commaFormat n with
    | nil => exact absurd hC this
    | cons a t => rfl
  simp only [parseFactValue, hne, Bool.false_eq_true, if_false,
    negStripped_commaFormat, jsParseFloat_natDigits, isNegFlag_commaFormat]

theorem natDigits_class (n : Nat) :
    ∀ c ∈ natDigits n, isJsWs c = false ∧ c ≠ ',' := by
  intro c hc
  obtain ⟨d, hd10, rfl⟩ := mem_natDigits hc
  exact ⟨(digitChar_class d hd10).2.1, (digitChar_class d hd10).2.2.2.1⟩

/-- Round trip for the Japanese negative glyph. -/
theorem parseFactValue_glyph (n : Nat) :
    parseFactValue (.str ('△' :: natDigits n)) = some (.fin (-(n : ℚ))) := by
  have hclean : cleanedText ('△' :: natDigits n) = '△' :: natDigits n := by
    refine cleanedText_eq_self ?_
    intro c hc
    rcases List.mem_cons.mp hc with rfl | hm
    · exact ⟨by decide, by decide⟩
    · exact natDigits_class n c hm
  have hstrip : negStripped ('△' :: natDigits n) = natDigits n := by
    unfold negStripped
    rw [hclean, List.filter_cons_of_neg (by decide), filter_glyph_natDigits]
  have hflag : isNegFlag ('△' :: natDigits n) = true := by
    unfold isNegFlag
    rw [hclean]
    simp
  simp only [parseFactValue, List.isEmpty_cons, Bool.false_eq_true, if_false, hstrip,
    jsParseFloat_natDigits, hflag, if_true, jsNegNum]

/-- Round trip for the ASCII minus sign. -/
theorem parseFactValue_dash (n : Nat) :
    parseFactValue (.str ('-' :: natDigits n)) = some (.fin (-(n : ℚ))) := by
  have hclean : cleanedText ('-' :: natDigits n) = '-' :: natDigits n := by
    refine cleanedText_eq_self ?_
    intro c hc
    rcases List.mem_cons.mp hc with rfl | hm
    · exact ⟨by decide, by decide⟩
    · exact natDigits_class n c hm
  have hstrip : negStripped ('-' :: natDigits n) = natDigits n := by
    unfold negStripped
    rw [hclean, List.filter_cons_of_neg (by decide), filter_glyph_natDigits]
  have hflag : isNegFlag ('-' :: natDigits n) = true := by
    unfold isNegFlag
    rw [hclean]
    simp [headIs]
  simp only [parseFactValue, List.isEmpty_cons, Bool.false_eq_true, if_false, hstrip,
    jsParseFloat_natDigits, hflag, if_true, jsNegNum]

/-- C4: `parseFactValue` never throws — it is a total function into
`Option JSNum` — and it returns `null` whenever the input is not a string,
is the empty string, or the cleaned text (after stripping commas,
whitespace including the full-width space, and the negative glyphs) is not
a number `parseFloat` accepts; whenever a negative glyph is present in the
input, or the input starts with an ASCII minus, the parsed magnitude is
negated. -/
theorem parseFactValue_error_handling :
    (parseFactValue .nonString = none) ∧
    (parseFactValue (.str []) = none) ∧
    (∀ l : List Char, jsParseFloat (negStripped l) = none →
      parseFactValue (.str l) = none) ∧
    (∀ (l : List Char) (m : JSNum),
      ('△' ∈ l ∨ '▲' ∈ l ∨ '－' ∈ l ∨ headIs '-' l = true) →
      jsParseFloat (negStripped l) = some m →
      parseFactValue (.str l) = some (jsNegNum m)) := by
  refine ⟨rfl, rfl, ?_, ?_⟩
  · intro l h
    cases hl : l.isEmpty
    · simp only [parseFactValue, hl, Bool.false_eq_true, if_false, h]
    · simp only [parseFactValue, hl, if_true]
  · intro l m hneg hparse
    have hNE : l.isEmpty = false := by
      cases l with
      | nil =>
        rcases hneg with h | h | h | h
        · exact absurd h (List.not_mem_nil _)
        · exact absurd h (List.not_mem_nil _)
        · exact absurd h (List.not_mem_nil _)
        · exact absurd h (by simp [headIs])
      | cons a t => rfl
    have hflag : isNegFlag l = true := by
      simp only [isNegFlag]
      rcases hneg with h | h | h | h
      · have hm : '△' ∈ cleanedText l := mem_cleanedText h (by decide) (by decide)
        simp [hm]
      · have hm : '▲' ∈ cleanedText l := mem_cleanedText h (by decide) (by decide)
        simp [hm]
      · have hm : '－' ∈ cleanedText l := mem_cleanedText h (by decide) (by decide)
        simp [hm]
      · simp [headIs_cleanedText h]
    simp only [parseFactValue, hNE, Bool.false_eq_true, if_false, hparse, hflag, if_true]

/-- Witness for C4 at concrete inputs: a non-numeric string parses to
`null`, and a glyph-negated number comes out negated. -/
theorem parseFactValue_error_handling_witness :
    parseFactValue (.str ['a', 'b', 'c']) = none ∧
    parseFactValue (.str ['△', '7']) = some (jsNegNum (.fin 7)) := by
  constructor
  · exact parseFactValue_error_handling.2.2.1 ['a', 'b', 'c'] (by decide)
  · refine parseFactValue_error_handling.2.2.2 ['△', '7'] (.fin 7) (Or.inl (by decide)) ?_
    have h : negStripped ['△', '7'] = natDigits 7 := by decide
    rw [h, jsParseFloat_natDigits]
    norm_num

/-- C5: value-parsing round trip — for every natural number N, parsing the
comma-grouped rendering of N recovers N, and parsing the digits of N
prefixed by the glyph `△` or by an ASCII minus yields `-N`. -/
theorem parseFactValue_round_trip (n : Nat) :
    parseFactValue (.str (commaFormat n)) = some (.fin (n : ℚ)) ∧
    parseFactValue (.str ('△' :: natDigits n)) = some (.fin (-(n : ℚ))) ∧
    parseFactValue (.str ('-' :: natDigits n)) = some (.fin (-(n : ℚ))) :=
  ⟨parseFactValue_commaFormat n, parseFactValue_glyph n, parseFactValue_dash n⟩

/-! ### Concept classification (`classifyFact`, src/src/xbrl-parser.js lines 219-335) -/

/-- `str.includes(needle)` after lowercasing the haystack only, as the
source does (`conceptLower.includes(kw)` with lowercase keyword literals). -/
def hasKw (cl : List Char) (kw : String) : Bool := hasSub cl kw.data

def catOperatingExpenses : String := "Operating Expenses"
def catCostOfSales : String := "Cost of Sales"
def catExpenses : String := "Expenses"
def catRevenue : String := "Revenue"
def catCurrentAssets : String := "Current Assets"
def catNonCurrentAssets : String := "Non-current Assets"
def catTotalAssets : String := "Total Assets"
def catAssets : String := "Assets"
def catCurrentLiabilities : String := "Current Liabilities"
def catNonCurrentLiabilities : String := "Non-current Liabilities"
def catTotalLiabilities : String := "Total Liabilities"
def catLiabilities : String := "Liabilities"
def catEquity : String := "Equity"
def catOperatingIncome : String := "Operating Income"
def catGrossProfit : String := "Gross Profit"
def catNetIncome : String := "Net Income/Profit"
def catCashFlowOperating : String := "Cash Flow - Operating"
def catCashFlowInvesting : String := "Cash Flow - Investing"
def catCashFlowFinancing : String := "Cash Flow - Financing"
def catCash : String := "Cash & Equivalents"
def catInventory : String := "Inventory"
def catReceivables : String := "Receivables"
def catPayables : String := "Payables"
def catDepreciation : String := "Depreciation/Amortization"
def catOther : String := "Other"

/-- `classifyFact(concept, taxonomy)`: ordered, case-insensitive keyword
matching; expense keywords are deliberately checked before revenue
keywords.  The `taxonomy` parameter is accepted but never read, exactly as
in the source. -/
def classifyFact (concept : List Char) (taxonomy : List Char) : String :=
  let cl := toLowerL concept
  if hasKw cl "expense" || hasKw cl "cost" || hasKw cl "비용" || hasKw cl "원가" ||
      hasKw cl "費用" || hasKw cl "経費" || hasKw cl "販売費" then
    if hasKw cl "operating" || hasKw cl "영업" || hasKw cl "営業" then catOperatingExpenses
    else if hasKw cl "costofsales" || hasKw cl "costofrevenue" || hasKw cl "매출원가" ||
        hasKw cl "売上原価" then catCostOfSales
    else catExpenses
  else if hasKw cl "revenue" || hasKw cl "sales" || hasKw cl "netrevenue" ||
      hasKw cl "netsales" || hasKw cl "매출" || hasKw cl "수익" || hasKw cl "売上" ||
      hasKw cl "営業収益" || hasKw cl "収益" then catRevenue
  else if hasKw cl "asset" || hasKw cl "자산" || hasKw cl "資産" then
    if hasKw cl "current" || hasKw cl "유동" || hasKw cl "流動" then catCurrentAssets
    else if hasKw cl "noncurrent" || hasKw cl "non-current" || hasKw cl "비유동" ||
        hasKw cl "固定" then catNonCurrentAssets
    else if hasKw cl "total" || hasKw cl "합계" || hasKw cl "総" then catTotalAssets
    else catAssets
  else if hasKw cl "liabilit" || hasKw cl "부채" || hasKw cl "負債" then
    if hasKw cl "current" || hasKw cl "유동" || hasKw cl "流動" then catCurrentLiabilities
    else if hasKw cl "noncurrent" || hasKw cl "non-current" || hasKw cl "비유동" ||
        hasKw cl "固定" then catNonCurrentLiabilities
    else if hasKw cl "total" || hasKw cl "합계" || hasKw cl "総" then catTotalLiabilities
    else catLiabilities
  else if hasKw cl "equity" || hasKw cl "자본" || hasKw cl "資本" ||
      hasKw cl "netassets" || hasKw cl "stockholdersequity" || hasKw cl "純資産" then
    catEquity
  else if hasKw cl "income" || hasKw cl "profit" || hasKw cl "당기순이익" ||
      hasKw cl "이익" || hasKw cl "利益" || hasKw cl "所得" || hasKw cl "netincome" ||
      hasKw cl "netprofit" || hasKw cl "当期純利益" || hasKw cl "税引前利益" then
    if hasKw cl "operating" || hasKw cl "영업" || hasKw cl "営業" then catOperatingIncome
    else if hasKw cl "gross" || hasKw cl "매출총" || hasKw cl "売上総" then catGrossProfit
    else catNetIncome
  else if hasKw cl "cash" || hasKw cl "현금" || hasKw cl "現金" then
    if hasKw cl "operating" || hasKw cl "영업활동" || hasKw cl "営業活動" then
      catCashFlowOperating
    else if hasKw cl "investing" || hasKw cl "투자활동" || hasKw cl "投資活動" then
      catCashFlowInvesting
    else if hasKw cl "financing" || hasKw cl "재무활동" || hasKw cl "財務活動" then
      catCashFlowFinancing
    else catCash
  else if hasKw cl "inventor" || hasKw cl "재고" || hasKw cl "棚卸" then catInventory
  else if hasKw cl "receivable" || hasKw cl "매출채권" || hasKw cl "売掛金" ||
      hasKw cl "受取" then catReceivables
  else if hasKw cl "payable" || hasKw cl "매입채무" || hasKw cl "買掛金" then catPayables
  else if hasKw cl "depreciation" || hasKw cl "amortization" || hasKw cl "감가상각" ||
      hasKw cl "償却" then catDepreciation
  else catOther

/-- C6: any concept whose lowercasing contains an expense-family keyword —
in particular one that also contains a revenue-family keyword — is
classified into an expense category and never as Revenue, because the
expense branch is tested first. -/
theorem classifyFact_expense_precedence (concept taxonomy : List Char)
    (hexp : hasKw (toLowerL concept) "cost" = true ∨
      hasKw (toLowerL concept) "expense" = true ∨
      hasKw (toLowerL concept) "비용" = true ∨ hasKw (toLowerL concept) "원가" = true ∨
      hasKw (toLowerL concept) "費用" = true ∨ hasKw (toLowerL concept) "経費" = true ∨
      hasKw (toLowerL concept) "販売費" = true)
    (hrev : hasKw (toLowerL concept) "revenue" = true ∨
      hasKw (toLowerL concept) "sales" = true ∨
      hasKw (toLowerL concept) "매출" = true ∨ hasKw (toLowerL concept) "수익" = true ∨
      hasKw (toLowerL concept) "売上" = true ∨ hasKw (toLowerL concept) "収益" = true) :
    (classifyFact concept taxonomy = catOperatingExpenses ∨
      classifyFact concept taxonomy = catCostOfSales ∨
      classifyFact concept taxonomy = catExpenses) ∧
    classifyFact concept taxonomy ≠ catRevenue := by
  have hbranch : (hasKw (toLowerL concept) "expense" || hasKw (toLowerL concept) "cost" ||
      hasKw (toLowerL concept) "비용" || hasKw (toLowerL concept) "원가" ||
      hasKw (toLowerL concept) "費用" || hasKw (toLowerL concept) "経費" ||
      hasKw (toLowerL concept) "販売費") = true := by
    rcases hexp with h | h | h | h | h | h | h <;> simp [h]
  have hval : classifyFact concept taxonomy = catOperatingExpenses ∨
      classifyFact concept taxonomy = catCostOfSales ∨
      classifyFact concept taxonomy = catExpenses := by
    unfold classifyFact
    rw [if_pos hbranch]
    by_cases h1 : (hasKw (toLowerL concept) "operating" ||
        hasKw (toLowerL concept) "영업" || hasKw (toLowerL concept) "営業") = true
    · rw [if_pos h1]
      exact Or.inl rfl
    · rw [if_neg h1]
      by_cases h2 : (hasKw (toLowerL concept) "costofsales" ||
          hasKw (toLowerL concept) "costofrevenue" || hasKw (toLowerL concept) "매출원가" ||
          hasKw (toLowerL concept) "売上原価") = true
      · rw [if_pos h2]
        exact Or.inr (Or.inl rfl)
      · rw [if_neg h2]
        exact Or.inr (Or.inr rfl)
  refine ⟨hval, ?_⟩
  rcases hval with h | h | h <;> rw [h] <;> decide

/-- Witness for C6: the documented collision case `CostOfSalesRevenue`. -/
theorem classifyFact_expense_precedence_witness :
    (classifyFact ("CostOfSalesRevenue").data ("unknown").data = catOperatingExpenses ∨
      classifyFact ("CostOfSalesRevenue").data ("unknown").data = catCostOfSales ∨
      classifyFact ("CostOfSalesRevenue").data ("unknown").data = catExpenses) ∧
    classifyFact ("CostOfSalesRevenue").data ("unknown").data ≠ catRevenue :=
  classifyFact_expense_precedence ("CostOfSalesRevenue").data ("unknown").data
    (Or.inl (by decide)) (Or.inl (by decide))

/-- C10: the `taxonomy` argument has no influence on the classification —
`classifyFact` reads only the concept string. -/
theorem classifyFact_ignores_taxonomy (concept t1 t2 : List Char) :
    classifyFact concept t1 = classifyFact concept t2 := rfl

/-! ### Fact model and `filterFacts` (src/src/xbrl-parser.js lines 406-435)

A parsed fact.  `value` is `none` for JS `null`; `period` is `none` when
the fact has no period object (the Korean path), and its `endDate` /
`instant` / `startDate` components use `[]` for both the empty string and
an absent field — the source only ever reads them through falsiness
(`fact.period?.endDate || fact.period?.instant || ''`), which identifies
the two.  `dimensions` is `none` for an absent mapping and otherwise an
association list in insertion order. -/

structure FactPeriod where
  instant : List Char
  startDate : List Char
  endDate : List Char
deriving DecidableEq

structure Fact where
  concept : List Char
  value : Option ℚ
  period : Option FactPeriod
  dimensions : Option (List (List Char × List Char))
  accountName : Option (List Char)
deriving DecidableEq

/-- An inclusive numeric range with optional bounds
(`criteria.valueRange`). -/
structure ValueRange where
  min : Option ℚ
  max : Option ℚ
deriving DecidableEq

/-- The recognized filter criteria; `none` models an absent key. -/
structure Criteria where
  concept : Option (List Char)
  valueRange : Option ValueRange
  period : Option (List Char)
  hasValue : Option Bool
  hasDimensions : Option Bool
deriving DecidableEq

/-- A criteria object with no key set. -/
def noCriteria : Criteria :=
  { concept := none, valueRange := none, period := none, hasValue := none,
    hasDimensions := none }

/-- The fact's effective period string:
`fact.period?.endDate || fact.period?.instant || ''`. -/
def effectivePeriod (f : Fact) : List Char :=
  match f.period with
  | none => []
  | some p => if p.endDate ≠ [] then p.endDate else if p.instant ≠ [] then p.instant else []

/-- The source's first early-return check: concept substring,
case-insensitive, skipped when the criterion is absent or falsy (empty). -/
def srcConceptOk (c : Criteria) (f : Fact) : Bool :=
  match c.concept with
  | none => true
  | some cc => cc.isEmpty || hasSub (toLowerL f.concept) (toLowerL cc)

/-- The source's second check: `hasValue && fact.value === null → reject`. -/
def srcHasValueOk (c : Criteria) (f : Fact) : Bool :=
  match c.hasValue with
  | some true => !(f.value = none)
  | _ => true

/-- The source's third check: value range with strict-comparison rejections
`fact.value < min` / `fact.value > max`, and null values rejected. -/
def srcValueRangeOk (c : Criteria) (f : Fact) : Bool :=
  match c.valueRange with
  | none => true
  | some vr =>
    match f.value with
    | none => false
    | some v =>
      (match vr.min with
       | none => true
       | some m => !(v < m)) &&
      (match vr.max with
       | none => true
       | some M => !(M < v))

/-- The source's fourth check: period substring on the effective period
string, skipped when absent or falsy (empty). -/
def srcPeriodOk (c : Criteria) (f : Fact) : Bool :=
  match c.period with
  | none => true
  | some p => p.isEmpty || hasSub (effectivePeriod f) p

/-- The source's fifth check: reject absent or empty dimension mappings. -/
def srcHasDimensionsOk (c : Criteria) (f : Fact) : Bool :=
  match c.hasDimensions with
  | some true =>
    match f.dimensions with
    | none => false
    | some d => !(d.isEmpty)
  | _ => true

/-- The `facts.filter` callback: the early-return chain of the source,
rendered as a short-circuit conjunction in source order. -/
def factMatches (c : Criteria) (f : Fact) : Bool :=
  srcConceptOk c f && srcHasValueOk c f && srcValueRangeOk c f && srcPeriodOk c f &&
    srcHasDimensionsOk c f

/-- `filterFacts(facts, criteria)` (src/src/xbrl-parser.js lines 406-435):
a pure filter — the input list is never mutated. -/
def filterFacts (facts : List Fact) (c : Criteria) : List Fact :=
  facts.filter (factMatches c)

/-- The concept criterion as the spec words it: case-insensitive substring
match, absent criterion is a no-op. -/
def specConceptOk (c : Criteria) (f : Fact) : Bool :=
  match c.concept with
  | none => true
  | some cc => hasSub (toLowerL f.concept) (toLowerL cc)

/-- The value-range criterion as the spec words it: inclusive bounds, and a
fact with null value never matches when a range is given. -/
def specValueRangeOk (c : Criteria) (f : Fact) : Bool :=
  match c.valueRange with
  | none => true
  | some vr =>
    match f.value with
    | none => false
    | some v =>
      (match vr.min with
       | none => true
       | some m => decide (m ≤ v)) &&
      (match vr.max with
       | none => true
       | some M => decide (v ≤ M))

/-- The period criterion as the spec words it: substring match on the
effective period string (endDate, else instant, else empty). -/
def specPeriodOk (c : Criteria) (f : Fact) : Bool :=
  match c.period with
  | none => true
  | some p => hasSub (effectivePeriod f) p

theorem hasSub_nil_needle (hay : List Char) : hasSub hay [] = true := by
  cases hay <;> simp [hasSub, startsWith]

theorem srcConceptOk_eq_spec (c : Criteria) (f : Fact) :
    srcConceptOk c f = specConceptOk c f := by
  unfold srcConceptOk specConceptOk
  cases c.concept with
  | none => rfl
  | some cc =>
    cases cc with
    | nil => simp [toLowerL, hasSub_nil_needle]
    | cons a t => rfl

theorem bool_not_lt (a b : ℚ) : (!decide (a < b)) = decide (b ≤ a) := by
  by_cases h : a < b
  · simp [h, not_le.mpr h]
  · simp [h, not_lt.mp h]

theorem srcValueRangeOk_eq_spec (c : Criteria) (f : Fact) :
    srcValueRangeOk c f = specValueRangeOk c f := by
  unfold srcValueRangeOk specValueRangeOk
  cases c.valueRange with
  | none => rfl
  | some vr =>
    cases f.value with
    | none => rfl
    | some v =>
      dsimp only
      cases vr.min with
      | none =>
        cases vr.max with
        | none => rfl
        | some M => simp [bool_not_lt]
      | some m =>
        cases vr.max with
        | none => simp [bool_not_lt]
        | some M => simp [bool_not_lt]

theorem srcPeriodOk_eq_spec (c : Criteria) (f : Fact) :
    srcPeriodOk c f = specPeriodOk c f := by
  unfold srcPeriodOk specPeriodOk
  cases c.period with
  | none => rfl
  | some p =>
    cases p with
    | nil => simp [hasSub_nil_needle]
    | cons a t => rfl

theorem factMatches_eq_spec (c : Criteria) (f : Fact) :
    factMatches c f = (specConceptOk c f && specValueRangeOk c f && specPeriodOk c f &&
      srcHasValueOk c f && srcHasDimensionsOk c f) := by
  unfold factMatches
  rw [srcConceptOk_eq_spec, srcValueRangeOk_eq_spec, srcPeriodOk_eq_spec]
  cases specConceptOk c f <;> cases specValueRangeOk c f <;> cases specPeriodOk c f <;>
    cases srcHasValueOk c f <;> cases srcHasDimensionsOk c f <;> rfl

/-- C7: `filterFacts` returns exactly the facts satisfying the conjunction
of the supplied criteria — case-insensitive concept substring, inclusive
value-range bounds rejecting null values, period substring on the
effective period string, has-value rejecting nulls, has-dimensions
rejecting empty or absent mappings — with absent criteria imposing no
constraint (filtering with an empty criteria object is the identity), and
the result is a sublist of the input, which is never mutated (all
embedded functions are pure).  The has-value and has-dimensions checks are
stated through their source forms, which are word-for-word the spec's
description; the other three are restated spec-side and proved equal to
the source checks. -/
theorem filterFacts_conjunction (facts : List Fact) (c : Criteria) :
    filterFacts facts c = facts.filter (fun f =>
      specConceptOk c f && specValueRangeOk c f && specPeriodOk c f &&
      srcHasValueOk c f && srcHasDimensionsOk c f) ∧
    filterFacts facts noCriteria = facts ∧
    (filterFacts facts c).Sublist facts := by
  refine ⟨?_, ?_, List.filter_sublist _⟩
  · unfold filterFacts
    exact List.filter_congr (fun f _ => factMatches_eq_spec c f)
  · unfold filterFacts
    apply List.filter_eq_self.mpr
    intro f _
    rfl

/-! ### Dimension extraction (fact-table-builder, src/unnamed/part_001
lines 1391-1509) -/

/-- The substring after the last `:` — JS `value.split(':').pop()`. -/
def afterLastColon (v : List Char) : List Char :=
  (v.reverse.takeWhile (fun c => !(c = ':'))).reverse

/-- Strip one trailing `Member` — JS `replace(/Member$/, '')`. -/
def stripMemberSuffix (v : List Char) : List Char :=
  if ("Member").data.isSuffixOf v then v.take (v.length - 6) else v

/-- Insert a space before every ASCII capital —
JS `replace(/([A-Z])/g, ' $1')`. -/
def spaceBeforeCaps (v : List Char) : List Char :=
  v.flatMap (fun c => if 'A' ≤ c ∧ c ≤ 'Z' then [' ', c] else [c])

/-- `cleanDimensionValue` (src/unnamed/part_001 lines 1501-1509): strip the
namespace prefix, strip a trailing `Member`, de-camel-case, trim.  The
source's falsy guard returns an empty string unchanged; dimension values
are always strings in the parsed fact model. -/
def cleanDimensionValue (v : List Char) : List Char :=
  if v.isEmpty then v
  else jsTrim (spaceBeforeCaps (stripMemberSuffix (afterLastColon v)))

/-- The geography axis keywords, in source order. -/
def geoKeys : List (List Char) :=
  [("GeographicalAreasMember").data, ("CountriesMember").data, ("RegionsMember").data,
   ("StatementGeographicalAxis").data, ("GeographicArea").data, ("地域").data,
   ("Region").data, ("지역").data, ("Area").data]

/-- The business-segment axis keywords, in source order. -/
def segmentKeys : List (List Char) :=
  [("SegmentsMember").data, ("BusinessSegmentsMember").data,
   ("OperatingSegmentsMember").data, ("StatementBusinessSegmentsAxis").data,
   ("Segment").data, ("セグメント").data, ("BusinessSegment").data, ("사업부문").data,
   ("부문").data]

/-- The product axis keywords, in source order. -/
def productKeys : List (List Char) :=
  [("ProductsAndServicesMember").data, ("ProductMember").data, ("SubsegmentsAxis").data,
   ("Product").data, ("製品").data, ("商品").data, ("제품").data, ("상품").data]

/-- Generic extractor: first key (in insertion order) whose text contains
one of the keywords; its value is cleaned.  `none` for an absent mapping. -/
def extractByKeys (keys : List (List Char))
    (dims : Option (List (List Char × List Char))) : Option (List Char) :=
  match dims with
  | none => none
  | some l =>
    match l.find? (fun kv => keys.any (fun k => hasSub kv.1 k)) with
    | none => none
    | some kv => some (cleanDimensionValue kv.2)

/-- `extractGeographyFromDimensions` (src/unnamed/part_001 1391-1416). -/
def extractGeographyFromDimensions (dims : Option (List (List Char × List Char))) :
    Option (List Char) :=
  extractByKeys geoKeys dims

/-- `extractSegmentFromDimensions` (src/unnamed/part_001 1421-1446). -/
def extractSegmentFromDimensions (dims : Option (List (List Char × List Char))) :
    Option (List Char) :=
  extractByKeys segmentKeys dims

/-- `extractProductFromDimensions` (src/unnamed/part_001 1451-1476). -/
def extractProductFromDimensions (dims : Option (List (List Char × List Char))) :
    Option (List Char) :=
  extractByKeys productKeys dims

theorem extractByKeys_cleaned {keys : List (List Char)}
    {l : List (List Char × List Char)} {w : List Char}
    (h : extractByKeys keys (some l) = some w) :
    ∃ kv ∈ l, w = cleanDimensionValue kv.2 := by
  unfold extractByKeys at h
  dsimp only at h
  cases hf : l.find? (fun kv => keys.any (fun k => hasSub kv.1 k)) with
  | none => rw [hf] at h; exact absurd h (by simp)
  | some kv =>
    rw [hf] at h
    simp only [Option.some.injEq] at h
    exact ⟨kv, List.mem_of_find?_eq_some hf, h.symm⟩

/-- C9: the dimension extractors are pure functions of the mapping —
`null` and the empty mapping extract nothing; the documented IFRS example
extracts exactly `Japan`; the cleaning of a raw value is precisely
namespace-strip, `Member`-strip, space-before-capitals, trim (the source's
falsy guard changes nothing, since the pipeline fixes the empty string);
and every extracted value is the cleaning of some raw dimension value of
the mapping. -/
theorem dimension_extraction_pure :
    (extractGeographyFromDimensions none = none) ∧
    (extractGeographyFromDimensions (some []) = none) ∧
    (extractGeographyFromDimensions
      (some [(("ifrs-full:GeographicalAreasMember").data, ("Japan").data)]) =
      some (("Japan").data)) ∧
    (∀ v : List Char,
      cleanDimensionValue v = jsTrim (spaceBeforeCaps (stripMemberSuffix (afterLastColon v)))) ∧
    (∀ (l : List (List Char × List Char)) (w : List Char),
      extractGeographyFromDimensions (some l) = some w →
      ∃ kv ∈ l, w = cleanDimensionValue kv.2) ∧
    (∀ (l : List (List Char × List Char)) (w : List Char),
      extractSegmentFromDimensions (some l) = some w →
      ∃ kv ∈ l, w = cleanDimensionValue kv.2) ∧
    (∀ (l : List (List Char × List Char)) (w : List Char),
      extractProductFromDimensions (some l) = some w →
      ∃ kv ∈ l, w = cleanDimensionValue kv.2) := by
  refine ⟨rfl, rfl, by decide, ?_, ?_, ?_, ?_⟩
  · intro v
    unfold cleanDimensionValue
    cases hv : v.isEmpty
    · rw [if_neg (by simp [hv])]
    · have : v = [] := by
        cases v with
        | nil => rfl
        | cons a t => simp at hv
      subst this
      rfl
  · intro l w h
    exact extractByKeys_cleaned h
  · intro l w h
    exact extractByKeys_cleaned h
  · intro l w h
    exact extractByKeys_cleaned h

/-- Witness for C9 at a concrete mapping: one matching key whose raw value
needs namespace-stripping, `Member`-stripping and de-camel-casing. -/
theorem dimension_extraction_pure_witness :
    ∃ kv ∈ [(("jppfs_cor:GeographicArea").data, ("jp:NorthAmericaMember").data)],
      ("North America").data = cleanDimensionValue kv.2 :=
  dimension_extraction_pure.2.2.2.2.1
    [(("jppfs_cor:GeographicArea").data, ("jp:NorthAmericaMember").data)]
    (("North America").data) (by decide)

/-! ### Fact-table builder (`buildFactTable`, src/unnamed/part_001 lines
1070-1234, and `generateFactTableSummary`, lines 1239-1288)

The country-specific retrieval is an external collaborator; the embedded
core starts from the retrieved fact list (step 2 of the source, "find
facts in value range") and covers filtering, enrichment, sorting,
truncation and the summary.  Display-only fields (`formatCurrency`
strings, `deviationPercent`, `contextRef`/`unitRef`/`decimals`/`scale`
pass-throughs) are omitted from the row record. -/

structure Enriched where
  rowNumber : Nat
  concept : List Char
  accountName : Option (List Char)
  value : Option ℚ
  exactMatch : Bool
  deviationFromTarget : ℚ
  periodType : List Char
  dimensions : List (List Char × List Char)
  dimensionCount : Nat
  geography : Option (List Char)
  segment : Option (List Char)
  product : Option (List Char)
  hasGeographicDimension : Bool
  hasSegmentDimension : Bool
  hasProductDimension : Bool
  businessClassification : String
deriving DecidableEq

/-- Enrichment of one matching fact (step 3 of `buildFactTable`); `idx` is
the 0-based position in the matching list.  In `fact.value - targetValue`
a JS `null` coerces to 0; on every list this is applied to, `value` is
non-null because the search criteria always carry a value range. -/
def enrichOne (t : ℚ) (tax : List Char) (idx : Nat) (f : Fact) : Enriched :=
  let deviation := f.value.getD 0 - t
  { rowNumber := idx + 1
    concept := f.concept
    accountName := f.accountName
    value := f.value
    exactMatch := decide (|deviation| < 1000)
    deviationFromTarget := deviation
    periodType := (match f.period with
      | some p => if !p.instant.isEmpty then ("instant").data else ("duration").data
      | none => ("duration").data)
    dimensions := f.dimensions.getD []
    dimensionCount := (f.dimensions.getD []).length
    geography := extractGeographyFromDimensions f.dimensions
    segment := extractSegmentFromDimensions f.dimensions
    product := extractProductFromDimensions f.dimensions
    hasGeographicDimension := (extractGeographyFromDimensions f.dimensions).isSome
    hasSegmentDimension := (extractSegmentFromDimensions f.dimensions).isSome
    hasProductDimension := (extractProductFromDimensions f.dimensions).isSome
    businessClassification := classifyFact f.concept tax }

/-- Comparator for `sortBy: 'deviation'`: ascending absolute deviation. -/
def devLe (a b : Enriched) : Bool :=
  decide (|a.deviationFromTarget| ≤ |b.deviationFromTarget|)

/-- Comparator for `sortBy: 'value'`: descending value. -/
def valGe (a b : Enriched) : Bool := decide (b.value.getD 0 ≤ a.value.getD 0)

/-- Comparator for `sortBy: 'concept'`: lexicographic ascending (the
source's `localeCompare` modelled as code-unit order). -/
def conceptLe (a b : Enriched) : Bool := lexLe a.concept b.concept

/-- `sortFacts` (src/unnamed/part_001 lines 1353-1361): any other
`sortBy` string leaves the order unchanged. -/
def sortFacts (facts : List Enriched) (sortBy : List Char) : List Enriched :=
  if sortBy = ("deviation").data then sortByLe devLe facts
  else if sortBy = ("value").data then sortByLe valGe facts
  else if sortBy = ("concept").data then sortByLe conceptLe facts
  else facts

/-- One geography/segment breakdown bucket: count, total, average. -/
structure BreakdownEntry where
  count : Nat
  totalValue : ℚ
  avgValue : ℚ
deriving DecidableEq

/-- Add one value to a keyed accumulator, preserving first-insertion
order, as JS object-key updates do. -/
def bumpBreakdown (acc : List (List Char × Nat × ℚ)) (key : List Char) (v : ℚ) :
    List (List Char × Nat × ℚ) :=
  if acc.any (fun kv => kv.1 = key) then
    acc.map (fun kv => if kv.1 = key then (kv.1, kv.2.1 + 1, kv.2.2 + v) else kv)
  else acc ++ [(key, 1, v)]

/-- `getGeographicBreakdown` / `getSegmentBreakdown` (src/unnamed/part_001
lines 1293-1349): facts with a falsy (absent or empty) label are skipped;
averages are computed in a second pass. -/
def getBreakdown (select : Enriched → Option (List Char)) (facts : List Enriched) :
    List (List Char × BreakdownEntry) :=
  let raw := facts.foldl (fun acc f =>
    match select f with
    | none => acc
    | some g => if g.isEmpty then acc else bumpBreakdown acc g (f.value.getD 0)) []
  raw.map (fun kv => (kv.1, ⟨kv.2.1, kv.2.2, kv.2.2 / (kv.2.1 : ℚ)⟩))

/-- Increment a keyed counter (`businessTypes` accumulation). -/
def bumpCount (acc : List (String × Nat)) (k : String) : List (String × Nat) :=
  if acc.any (fun kv => kv.1 = k) then
    acc.map (fun kv => if kv.1 = k then (kv.1, kv.2 + 1) else kv)
  else acc ++ [(k, 1)]

/-- The reducer of `summary.closestMatch`: keep the fact with the strictly
smaller absolute deviation. -/
def pickCloser (c f : Enriched) : Enriched :=
  if |f.deviationFromTarget| < |c.deviationFromTarget| then f else c

structure TableSummary where
  totalFacts : Nat
  exactMatches : Nat
  conceptTypes : List (List Char)
  uniqueConcepts : Nat
  factsWithGeography : Nat
  factsWithSegments : Nat
  factsWithProducts : Nat
  factsWithDimensions : Nat
  valueMin : Option ℚ
  valueMax : Option ℚ
  valueAverage : Option ℚ
  businessTypes : List (String × Nat)
  periodTypes : List (List Char)
  geographicBreakdown : List (List Char × BreakdownEntry)
  segmentBreakdown : List (List Char × BreakdownEntry)
  closestMatch : Option Enriched
  message : Option String
deriving DecidableEq

/-- `generateFactTableSummary` (src/unnamed/part_001 lines 1239-1288),
computed over the full enriched list it is given. -/
def generateFactTableSummary (facts : List Enriched) : TableSummary :=
  match facts with
  | [] =>
    { totalFacts := 0, exactMatches := 0, conceptTypes := [], uniqueConcepts := 0,
      factsWithGeography := 0, factsWithSegments := 0, factsWithProducts := 0,
      factsWithDimensions := 0, valueMin := none, valueMax := none, valueAverage := none,
      businessTypes := [], periodTypes := [], geographicBreakdown := [],
      segmentBreakdown := [], closestMatch := none, message := some "No facts found" }
  | f0 :: rest =>
    let values := (f0 :: rest).map (fun f => f.value.getD 0)
    { totalFacts := (f0 :: rest).length
      exactMatches := ((f0 :: rest).filter (fun f => f.exactMatch)).length
      conceptTypes := dedupFirst ((f0 :: rest).map (fun f => f.concept))
      uniqueConcepts := (dedupFirst ((f0 :: rest).map (fun f => f.concept))).length
      factsWithGeography := ((f0 :: rest).filter (fun f => f.hasGeographicDimension)).length
      factsWithSegments := ((f0 :: rest).filter (fun f => f.hasSegmentDimension)).length
      factsWithProducts := ((f0 :: rest).filter (fun f => f.hasProductDimension)).length
      factsWithDimensions :=
        ((f0 :: rest).filter (fun f => decide (0 < f.dimensionCount))).length
      valueMin := some ((rest.map (fun f => f.value.getD 0)).foldl min (f0.value.getD 0))
      valueMax := some ((rest.map (fun f => f.value.getD 0)).foldl max (f0.value.getD 0))
      valueAverage := some (values.foldl (fun s v => s + v) 0 / (values.length : ℚ))
      businessTypes := (f0 :: rest).foldl (fun acc f => bumpCount acc f.businessClassification) []
      periodTypes := dedupFirst ((f0 :: rest).map (fun f => f.periodType))
      geographicBreakdown := getBreakdown (fun f => f.geography) (f0 :: rest)
      segmentBreakdown := getBreakdown (fun f => f.segment) (f0 :: rest)
      closestMatch := some (rest.foldl pickCloser f0)
      message := none }

/-- `matchingFacts.map((fact, index) => ...)` — enrichment with the 0-based
position, by direct recursion. -/
def enrichAll (t : ℚ) (tax : List Char) : Nat → List Fact → List Enriched
  | _, [] => []
  | i, f :: rest => enrichOne t tax i f :: enrichAll t tax (i + 1) rest

structure TableOptions where
  maxRows : Nat
  sortBy : List Char
  filters : Criteria
deriving DecidableEq

/-- The defaults of `buildFactTable`: 25 rows, deviation sort, no extra
filters. -/
def defaultTableOptions : TableOptions :=
  { maxRows := 25, sortBy := ("deviation").data, filters := noCriteria }

/-- JS object spread `{...base, ...extra}` on criteria objects: a key
present in `extra` wins. -/
def mergeCriteria (base extra : Criteria) : Criteria :=
  { concept := extra.concept.or base.concept
    valueRange := extra.valueRange.or base.valueRange
    period := extra.period.or base.period
    hasValue := extra.hasValue.or base.hasValue
    hasDimensions := extra.hasDimensions.or base.hasDimensions }

/-- The search criteria of step 2: the value window and `hasValue`, with
any caller-supplied filters spread over them. -/
def searchCriteria (t tol : ℚ) (filters : Criteria) : Criteria :=
  mergeCriteria
    { concept := none, valueRange := some ⟨some (t - tol), some (t + tol)⟩,
      period := none, hasValue := some true, hasDimensions := none } filters

structure FactTableResult where
  targetValue : ℚ
  tolerance : ℚ
  searchMin : ℚ
  searchMax : ℚ
  table : List Enriched
  summary : TableSummary
  totalFactsFound : Nat
  totalFactsReturned : Nat
deriving DecidableEq

/-- Steps 2-6 of `buildFactTable`: filter to the value window, enrich,
sort, truncate to `maxRows`, and summarize the full (pre-truncation)
enriched list. -/
def buildFactTableCore (facts : List Fact) (t tol : ℚ) (opts : TableOptions)
    (tax : List Char) : FactTableResult :=
  let matching := filterFacts facts (searchCriteria t tol opts.filters)
  if matching.isEmpty then
    { targetValue := t, tolerance := tol, searchMin := t - tol, searchMax := t + tol,
      table := [],
      summary := { generateFactTableSummary [] with
        message := some "No facts found in the specified value range" },
      totalFactsFound := 0, totalFactsReturned := 0 }
  else
    let enriched := enrichAll t tax 0 matching
    let sorted := sortFacts enriched opts.sortBy
    let limited := sorted.take opts.maxRows
    { targetValue := t, tolerance := tol, searchMin := t - tol, searchMax := t + tol,
      table := limited,
      summary := generateFactTableSummary sorted,
      totalFactsFound := sorted.length, totalFactsReturned := limited.length }

theorem mem_sortFacts {x : Enriched} {l : List Enriched} (sortBy : List Char) :
    x ∈ sortFacts l sortBy ↔ x ∈ l := by
  unfold sortFacts
  split_ifs <;> simp [mem_sortByLe]

theorem length_sortFacts (l : List Enriched) (sortBy : List Char) :
    (sortFacts l sortBy).length = l.length := by
  unfold sortFacts
  split_ifs <;> simp [length_sortByLe]

theorem countP_sortFacts (p : Enriched → Bool) (l : List Enriched) (sortBy : List Char) :
    (sortFacts l sortBy).countP p = l.countP p := by
  unfold sortFacts
  split_ifs <;> simp [countP_sortByLe]

theorem foldl_add_sortFacts (f : Enriched → ℚ) (l : List Enriched) (sortBy : List Char) :
    (sortFacts l sortBy).foldl (fun s x => s + f x) 0 = l.foldl (fun s x => s + f x) 0 := by
  unfold sortFacts
  split_ifs <;> simp [foldl_add_sortByLe]

theorem foldl_min_mem (vs : List ℚ) : ∀ v0, vs.foldl min v0 ∈ v0 :: vs := by
  induction vs with
  | nil => simp
  | cons a t ih =>
    intro v0
    simp only [List.foldl_cons]
    rcases List.mem_cons.mp (ih (min v0 a)) with h | h
    · rcases min_choice v0 a with hm | hm <;> rw [h, hm] <;> simp
    · simp [h]

theorem foldl_min_le (vs : List ℚ) : ∀ v0, ∀ x ∈ v0 :: vs, vs.foldl min v0 ≤ x := by
  induction vs with
  | nil =>
    intro v0 x hx
    simp only [List.mem_singleton] at hx
    simp [hx]
  | cons a t ih =>
    intro v0 x hx
    simp only [List.foldl_cons]
    rcases List.mem_cons.mp hx with rfl | hx2
    · exact le_trans (ih (min x a) _ (List.mem_cons_self _ _)) (min_le_left x a)
    · rcases List.mem_cons.mp hx2 with rfl | hx3
      · exact le_trans (ih (min v0 x) _ (List.mem_cons_self _ _)) (min_le_right v0 x)
      · exact ih (min v0 a) x (List.mem_cons_of_mem _ hx3)

theorem foldl_max_mem (vs : List ℚ) : ∀ v0, vs.foldl max v0 ∈ v0 :: vs := by
  induction vs with
  | nil => simp
  | cons a t ih =>
    intro v0
    simp only [List.foldl_cons]
    rcases List.mem_cons.mp (ih (max v0 a)) with h | h
    · rcases max_choice v0 a with hm | hm <;> rw [h, hm] <;> simp
    · simp [h]

theorem foldl_max_ge (vs : List ℚ) : ∀ v0, ∀ x ∈ v0 :: vs, x ≤ vs.foldl max v0 := by
  induction vs with
  | nil =>
    intro v0 x hx
    simp only [List.mem_singleton] at hx
    simp [hx]
  | cons a t ih =>
    intro v0 x hx
    simp only [List.foldl_cons]
    rcases List.mem_cons.mp hx with rfl | hx2
    · exact le_trans (le_max_left x a) (ih (max x a) _ (List.mem_cons_self _ _))
    · rcases List.mem_cons.mp hx2 with rfl | hx3
      · exact le_trans (le_max_right v0 x) (ih (max v0 x) _ (List.mem_cons_self _ _))
      · exact ih (max v0 a) x (List.mem_cons_of_mem _ hx3)

theorem pickCloser_cases (c f : Enriched) : pickCloser c f = c ∨ pickCloser c f = f := by
  unfold pickCloser
  split_ifs <;> simp

theorem foldl_pickCloser_mem (rest : List Enriched) :
    ∀ f0, rest.foldl pickCloser f0 ∈ f0 :: rest := by
  induction rest with
  | nil => simp
  | cons a t ih =>
    intro f0
    simp only [List.foldl_cons]
    rcases List.mem_cons.mp (ih (pickCloser f0 a)) with h | h
    · rcases pickCloser_cases f0 a with he | he <;> rw [h, he] <;> simp
    · simp [h]

theorem foldl_pickCloser_le (rest : List Enriched) :
    ∀ f0, ∀ x ∈ f0 :: rest,
      |(rest.foldl pickCloser f0).deviationFromTarget| ≤ |x.deviationFromTarget| := by
  induction rest with
  | nil =>
    intro f0 x hx
    simp only [List.mem_singleton] at hx
    simp [hx]
  | cons a t ih =>
    intro f0 x hx
    have hstep : |(pickCloser f0 a).deviationFromTarget| ≤ |f0.deviationFromTarget| ∧
        |(pickCloser f0 a).deviationFromTarget| ≤ |a.deviationFromTarget| := by
      unfold pickCloser
      split_ifs with h
      · exact ⟨le_of_lt h, le_refl _⟩
      · exact ⟨le_refl _, le_of_not_lt h⟩
    simp only [List.foldl_cons]
    rcases List.mem_cons.mp hx with rfl | hx2
    · exact le_trans (ih (pickCloser x a) _ (List.mem_cons_self _ _)) hstep.1
    · rcases List.mem_cons.mp hx2 with rfl | hx3
      · exact le_trans (ih (pickCloser f0 x) _ (List.mem_cons_self _ _)) hstep.2
      · exact ih (pickCloser f0 a) x (List.mem_cons_of_mem _ hx3)

/-- A fact selected by the default search criteria has a non-null value
inside the inclusive window. -/
theorem matching_value_range {facts : List Fact} {t tol : ℚ} {f : Fact}
    (hf : f ∈ filterFacts facts (searchCriteria t tol noCriteria)) :
    ∃ v, f.value = some v ∧ t - tol ≤ v ∧ v ≤ t + tol := by
  have hm := (List.mem_filter.mp hf).2
  unfold factMatches at hm
  simp only [Bool.and_eq_true] at hm
  have hr := hm.1.1.2
  have hsc : searchCriteria t tol noCriteria =
      { concept := none, valueRange := some ⟨some (t - tol), some (t + tol)⟩,
        period := none, hasValue := some true, hasDimensions := none } := rfl
  rw [hsc] at hr
  unfold srcValueRangeOk at hr
  dsimp only at hr
  cases hv : f.value with
  | none => rw [hv] at hr; exact absurd hr (by simp)
  | some v =>
    rw [hv] at hr
    dsimp only at hr
    simp only [Bool.and_eq_true, Bool.not_eq_true', decide_eq_false_iff_not, not_lt] at hr
    exact ⟨v, rfl, hr.1, hr.2⟩

theorem mem_enrichAll {t : ℚ} {tax : List Char} {x : Enriched} {i : Nat} {l : List Fact}
    (h : x ∈ enrichAll t tax i l) : ∃ j f, f ∈ l ∧ x = enrichOne t tax j f := by
  induction l generalizing i with
  | nil => simp [enrichAll] at h
  | cons a rest ih =>
    simp only [enrichAll, List.mem_cons] at h
    rcases h with rfl | h2
    · exact ⟨i, a, List.mem_cons_self a rest, rfl⟩
    · obtain ⟨j, f, hf, he⟩ := ih h2
      exact ⟨j, f, List.mem_cons_of_mem a hf, he⟩

theorem enrichAll_mem_of {t : ℚ} {tax : List Char} {f : Fact} {l : List Fact}
    (hf : f ∈ l) : ∀ i, ∃ j, enrichOne t tax j f ∈ enrichAll t tax i l := by
  induction l with
  | nil => simp at hf
  | cons a rest ih =>
    intro i
    rcases List.mem_cons.mp hf with rfl | h2
    · exact ⟨i, by simp [enrichAll]⟩
    · obtain ⟨j, hj⟩ := ih h2 (i + 1)
      exact ⟨j, by simp [enrichAll, hj]⟩

theorem length_enrichAll (t : ℚ) (tax : List Char) :
    ∀ (i : Nat) (l : List Fact), (enrichAll t tax i l).length = l.length := by
  intro i l
  induction l generalizing i with
  | nil => rfl
  | cons a rest ih => simp [enrichAll, ih]

theorem countP_enrichAll (t : ℚ) (tax : List Char) (p : Enriched → Bool) (q : Fact → Bool)
    (hpq : ∀ j f, p (enrichOne t tax j f) = q f) :
    ∀ (i : Nat) (l : List Fact), (enrichAll t tax i l).countP p = l.countP q := by
  intro i l
  induction l generalizing i with
  | nil => rfl
  | cons a rest ih =>
    simp only [enrichAll, List.countP_cons, ih, hpq]

theorem foldl_add_enrichAll (t : ℚ) (tax : List Char) (g : Enriched → ℚ) (q : Fact → ℚ)
    (hgq : ∀ j f, g (enrichOne t tax j f) = q f) :
    ∀ (i : Nat) (l : List Fact) (acc : ℚ),
      (enrichAll t tax i l).foldl (fun s x => s + g x) acc =
        l.foldl (fun s x => s + q x) acc := by
  intro i l
  induction l generalizing i with
  | nil => intro acc; rfl
  | cons a rest ih =>
    intro acc
    simp only [enrichAll, List.foldl_cons, ih, hgq]

/-- On a non-empty match, `buildFactTableCore` takes its main branch. -/
theorem buildFactTableCore_eq (facts : List Fact) (t tol : ℚ) (maxRows : Nat)
    (sortBy tax : List Char)
    (hne : filterFacts facts (searchCriteria t tol noCriteria) ≠ []) :
    buildFactTableCore facts t tol ⟨maxRows, sortBy, noCriteria⟩ tax =
      { targetValue := t, tolerance := tol, searchMin := t - tol, searchMax := t + tol,
        table := (sortFacts (enrichAll t tax 0 (filterFacts facts
            (searchCriteria t tol noCriteria))) sortBy).take maxRows,
        summary := generateFactTableSummary (sortFacts (enrichAll t tax 0 (filterFacts facts
            (searchCriteria t tol noCriteria))) sortBy),
        totalFactsFound := (sortFacts (enrichAll t tax 0 (filterFacts facts
            (searchCriteria t tol noCriteria))) sortBy).length,
        totalFactsReturned := ((sortFacts (enrichAll t tax 0 (filterFacts facts
            (searchCriteria t tol noCriteria))) sortBy).take maxRows).length } := by
  unfold buildFactTableCore
  rw [if_neg (by simp [hne])]

theorem summary_totalFacts {S : List Enriched} (h : S ≠ []) :
    (generateFactTableSummary S).totalFacts = S.length := by
  obtain ⟨s0, srest, rfl⟩ := List.exists_cons_of_ne_nil h
  rfl

theorem summary_exactMatches {S : List Enriched} (h : S ≠ []) :
    (generateFactTableSummary S).exactMatches = S.countP (fun f => f.exactMatch) := by
  obtain ⟨s0, srest, rfl⟩ := List.exists_cons_of_ne_nil h
  simp [generateFactTableSummary, List.countP_eq_length_filter]

theorem summary_closestMatch {S : List Enriched} (h : S ≠ []) :
    ∃ m, (generateFactTableSummary S).closestMatch = some m ∧ m ∈ S ∧
      ∀ x ∈ S, |m.deviationFromTarget| ≤ |x.deviationFromTarget| := by
  obtain ⟨s0, srest, rfl⟩ := List.exists_cons_of_ne_nil h
  exact ⟨_, rfl, foldl_pickCloser_mem srest s0, foldl_pickCloser_le srest s0⟩

theorem summary_valueMin {S : List Enriched} (h : S ≠ []) :
    ∃ mv, (generateFactTableSummary S).valueMin = some mv ∧
      mv ∈ S.map (fun f => f.value.getD 0) ∧
      ∀ w ∈ S.map (fun f => f.value.getD 0), mv ≤ w := by
  obtain ⟨s0, srest, rfl⟩ := List.exists_cons_of_ne_nil h
  refine ⟨_, rfl, ?_, ?_⟩
  · simpa [List.map_cons] using foldl_min_mem (srest.map (fun f => f.value.getD 0))
      (s0.value.getD 0)
  · intro w hw
    exact foldl_min_le _ _ _ (by simpa [List.map_cons] using hw)

theorem summary_valueMax {S : List Enriched} (h : S ≠ []) :
    ∃ mv, (generateFactTableSummary S).valueMax = some mv ∧
      mv ∈ S.map (fun f => f.value.getD 0) ∧
      ∀ w ∈ S.map (fun f => f.value.getD 0), w ≤ mv := by
  obtain ⟨s0, srest, rfl⟩ := List.exists_cons_of_ne_nil h
  refine ⟨_, rfl, ?_, ?_⟩
  · simpa [List.map_cons] using foldl_max_mem (srest.map (fun f => f.value.getD 0))
      (s0.value.getD 0)
  · intro w hw
    exact foldl_max_ge _ _ _ (by simpa [List.map_cons] using hw)

theorem summary_valueAverage {S : List Enriched} (h : S ≠ []) :
    (generateFactTableSummary S).valueAverage =
      some ((S.map (fun f => f.value.getD 0)).foldl (fun s v => s + v) 0 /
        ((S.map (fun f => f.value.getD 0)).length : ℚ)) := by
  obtain ⟨s0, srest, rfl⟩ := List.exists_cons_of_ne_nil h
  rfl

set_option maxHeartbeats 1600000 in
/-- C8: whenever at least one fact matches, every table row's value lies
in the inclusive window `[targetValue - tolerance, targetValue + tolerance]`;
the table is truncated to at most `maxRows` rows; and the summary is
computed over the full pre-truncation enriched set: `totalFacts` and
`exactMatches` count all matching facts, `closestMatch` is an enriched
matching fact of minimal absolute deviation among all matches, and the
value minimum / maximum / average range over all matching facts. -/
theorem buildFactTable_correct
    (facts : List Fact) (t tol : ℚ) (maxRows : Nat) (sortBy tax : List Char)
    (hne : filterFacts facts (searchCriteria t tol noCriteria) ≠ []) :
    (∀ r ∈ (buildFactTableCore facts t tol ⟨maxRows, sortBy, noCriteria⟩ tax).table,
      ∃ v, r.value = some v ∧ t - tol ≤ v ∧ v ≤ t + tol) ∧
    (buildFactTableCore facts t tol ⟨maxRows, sortBy, noCriteria⟩ tax).table.length ≤
      maxRows ∧
    (buildFactTableCore facts t tol ⟨maxRows, sortBy, noCriteria⟩ tax).summary.totalFacts =
      (filterFacts facts (searchCriteria t tol noCriteria)).length ∧
    (buildFactTableCore facts t tol ⟨maxRows, sortBy, noCriteria⟩ tax).summary.exactMatches =
      ((filterFacts facts (searchCriteria t tol noCriteria)).filter
        (fun f => decide (|f.value.getD 0 - t| < 1000))).length ∧
    (∃ m, (buildFactTableCore facts t tol
        ⟨maxRows, sortBy, noCriteria⟩ tax).summary.closestMatch = some m ∧
      (∃ i f, f ∈ filterFacts facts (searchCriteria t tol noCriteria) ∧
        m = enrichOne t tax i f) ∧
      (∀ f ∈ filterFacts facts (searchCriteria t tol noCriteria), ∀ v, f.value = some v →
        |m.deviationFromTarget| ≤ |v - t|)) ∧
    (∃ mv, (buildFactTableCore facts t tol
        ⟨maxRows, sortBy, noCriteria⟩ tax).summary.valueMin = some mv ∧
      (∃ f ∈ filterFacts facts (searchCriteria t tol noCriteria), f.value = some mv) ∧
      (∀ f ∈ filterFacts facts (searchCriteria t tol noCriteria), ∀ v, f.value = some v →
        mv ≤ v)) ∧
    (∃ mv, (buildFactTableCore facts t tol
        ⟨maxRows, sortBy, noCriteria⟩ tax).summary.valueMax = some mv ∧
      (∃ f ∈ filterFacts facts (searchCriteria t tol noCriteria), f.value = some mv) ∧
      (∀ f ∈ filterFacts facts (searchCriteria t tol noCriteria), ∀ v, f.value = some v →
        v ≤ mv)) ∧
    (buildFactTableCore facts t tol ⟨maxRows, sortBy, noCriteria⟩ tax).summary.valueAverage =
      some (((filterFacts facts (searchCriteria t tol noCriteria)).map
          (fun f => f.value.getD 0)).foldl (fun s v => s + v) 0 /
        ((filterFacts facts (searchCriteria t tol noCriteria)).length : ℚ)) := by
  rw [buildFactTableCore_eq facts t tol maxRows sortBy tax hne]
  set M := filterFacts facts (searchCriteria t tol noCriteria) with hMdef
  set E := enrichAll t tax 0 M with hEdef
  set S := sortFacts E sortBy with hSdef
  dsimp only
  have hmemS : ∀ x : Enriched, x ∈ S → ∃ i f, f ∈ M ∧ x = enrichOne t tax i f := by
    intro x hx
    have hx2 : x ∈ E := (mem_sortFacts sortBy).mp hx
    rw [hEdef] at hx2
    exact mem_enrichAll hx2
  have hrev : ∀ f ∈ M, ∃ i, enrichOne t tax i f ∈ S := by
    intro f hf
    obtain ⟨j, hj⟩ := enrichAll_mem_of hf 0
    refine ⟨j, (mem_sortFacts sortBy).mpr ?_⟩
    rw [hEdef]
    exact hj
  have hval : ∀ (i : Nat) (f : Fact), (enrichOne t tax i f).value = f.value :=
    fun i f => rfl
  have hdev : ∀ (i : Nat) (f : Fact),
      (enrichOne t tax i f).deviationFromTarget = f.value.getD 0 - t := fun i f => rfl
  have hSlen : S.length = M.length := by
    rw [hSdef, length_sortFacts, hEdef, length_enrichAll]
  have hSne : S ≠ [] := by
    intro hS0
    apply hne
    have h0 := hSlen
    rw [hS0] at h0
    exact List.length_eq_zero.mp h0.symm
  refine ⟨?_, ?_, ?_, ?_, ?_, ?_, ?_, ?_⟩
  · intro r hr
    have hrS : r ∈ S := (List.take_sublist _ _).subset hr
    obtain ⟨i, f, hfM, rfl⟩ := hmemS r hrS
    obtain ⟨v, hv, h1, h2⟩ := matching_value_range hfM
    refine ⟨v, ?_, h1, h2⟩
    rw [hval i f]
    exact hv
  · simpa [List.length_take] using min_le_left maxRows S.length
  · rw [summary_totalFacts hSne, hSlen]
  · rw [summary_exactMatches hSne, hSdef, countP_sortFacts, hEdef,
      countP_enrichAll t tax (fun f => f.exactMatch)
        (fun f => decide (|f.value.getD 0 - t| < 1000)) (fun j f => rfl) 0 M,
      List.countP_eq_length_filter]
  · obtain ⟨m, hm, hmem, hle⟩ := summary_closestMatch hSne
    refine ⟨m, hm, ?_, ?_⟩
    · obtain ⟨i, f, hf, rfl⟩ := hmemS m hmem
      exact ⟨i, f, hf, rfl⟩
    · intro f hf v hv
      obtain ⟨i, hi⟩ := hrev f hf
      have hx := hle _ hi
      rw [hdev i f, hv] at hx
      simpa using hx
  · obtain ⟨mv, hmv, hmem, hub⟩ := summary_valueMin hSne
    refine ⟨mv, hmv, ?_, ?_⟩
    · obtain ⟨x, hxS, hxv⟩ := List.mem_map.mp hmem
      obtain ⟨i, f, hf, rfl⟩ := hmemS x hxS
      obtain ⟨v, hv, h1, h2⟩ := matching_value_range hf
      refine ⟨f, hf, ?_⟩
      rw [hv]
      have : (enrichOne t tax i f).value.getD 0 = v := by rw [hval i f, hv]; rfl
      rw [← hxv, this]
    · intro f hf v hv
      obtain ⟨i, hi⟩ := hrev f hf
      have hx := hub _ (List.mem_map_of_mem _ hi)
      have hgd : (enrichOne t tax i f).value.getD 0 = v := by rw [hval i f, hv]; rfl
      rwa [hgd] at hx
  · obtain ⟨mv, hmv, hmem, hub⟩ := summary_valueMax hSne
    refine ⟨mv, hmv, ?_, ?_⟩
    · obtain ⟨x, hxS, hxv⟩ := List.mem_map.mp hmem
      obtain ⟨i, f, hf, rfl⟩ := hmemS x hxS
      obtain ⟨v, hv, h1, h2⟩ := matching_value_range hf
      refine ⟨f, hf, ?_⟩
      rw [hv]
      have : (enrichOne t tax i f).value.getD 0 = v := by rw [hval i f, hv]; rfl
      rw [← hxv, this]
    · intro f hf v hv
      obtain ⟨i, hi⟩ := hrev f hf
      have hx := hub _ (List.mem_map_of_mem _ hi)
      have hgd : (enrichOne t tax i f).value.getD 0 = v := by rw [hval i f, hv]; rfl
      rwa [hgd] at hx
  · rw [summary_valueAverage hSne]
    have hnum : (S.map (fun f => f.value.getD 0)).foldl (fun s v => s + v) 0
        = (M.map (fun f => f.value.getD 0)).foldl (fun s v => s + v) 0 := by
      rw [List.foldl_map, hSdef, foldl_add_sortFacts, hEdef,
        foldl_add_enrichAll t tax (fun x => x.value.getD 0) (fun f => f.value.getD 0)
          (fun j f => rfl) 0 M, List.foldl_map]
    have hlen : (S.map (fun f => f.value.getD 0)).length = M.length := by
      rw [List.length_map, hSlen]
    rw [hnum, hlen]

/-- Witness for C8 at the documented scenario: a single revenue fact of
value 1000000 against target 1000000 with tolerance 50000. -/
theorem buildFactTable_correct_witness :
    (buildFactTableCore
      [{ concept := ("Revenue").data, value := some 1000000, period := none,
         dimensions := none, accountName := none }]
      1000000 50000 ⟨25, ("deviation").data, noCriteria⟩ (("J-GAAP").data)).table.length ≤
      25 :=
  (buildFactTable_correct
    [{ concept := ("Revenue").data, value := some 1000000, period := none,
       dimensions := none, accountName := none }]
    1000000 50000 25 (("deviation").data) (("J-GAAP").data) (by
      have hv : decide ((some (1000000 : ℚ) : Option ℚ) = none) = false := by
        simp
      norm_num [filterFacts, List.filter, factMatches, srcConceptOk, srcHasValueOk,
        srcValueRangeOk, srcPeriodOk, srcHasDimensionsOk, searchCriteria, mergeCriteria,
        noCriteria, Option.or, hv])).2.1

/-! ### Time-series analyzer (src/src/time-series-analyzer.js)

One row of the flattened time-series table (`buildTimeSeriesTable`); only
the fields the trend/growth computations read are carried.  `geography`
and `segment` have already been defaulted to `"Total"` upstream. -/

structure TSRow where
  period : List Char
  value : ℚ
  geography : List Char
  segment : List Char
deriving DecidableEq

/-- `reduce((sum, d) => sum + d.value, 0)`. -/
def sumVals (rows : List TSRow) : ℚ := rows.foldl (fun s d => s + d.value) 0

/-- Sum of the values of the rows with the given geography label. -/
def geoSum (rows : List TSRow) (g : List Char) : ℚ :=
  sumVals (rows.filter (fun d => d.geography = g))

structure TrendResult where
  direction : String
  overallChange : Option ℚ
  overallChangePercent : Option ℚ
  periodTotals : List (List Char × ℚ)
  firstPeriod : Option (List Char × ℚ)
  lastPeriod : Option (List Char × ℚ)
deriving DecidableEq

/-- `calculateTrends` (src/src/time-series-analyzer.js lines 379-432).
`periods` is sorted ascending by `.sort()`, so index 0 is the earliest
period — yet the source reads `firstTotal` from index `length - 1` (the
chronologically latest) and `lastTotal` from index 0 (the earliest); the
guarded accesses `getLast?` / `head?` never miss because the length guard
has already passed. -/
def calculateTrends (ts : List TSRow) : TrendResult :=
  let periods := sortByLe lexLe (dedupFirst (ts.map (fun r => r.period)))
  if periods.length < 2 then
    { direction := "insufficient_data", overallChange := none,
      overallChangePercent := none, periodTotals := [], firstPeriod := none,
      lastPeriod := none }
  else
    let periodTotals := periods.map
      (fun p => (p, sumVals (ts.filter (fun r => r.period = p))))
    let firstTotal := ((periodTotals.getLast?).map (fun q => q.2)).getD 0
    let lastTotal := ((periodTotals.head?).map (fun q => q.2)).getD 0
    let overallChange := lastTotal - firstTotal
    let overallChangePercent :=
      if firstTotal > 0 then overallChange / firstTotal * 100 else 0
    let direction :=
      if overallChangePercent > 5 then "increasing"
      else if overallChangePercent < -5 then "decreasing"
      else "stable"
    { direction := direction, overallChange := some overallChange,
      overallChangePercent := some overallChangePercent,
      periodTotals := periodTotals,
      firstPeriod := periodTotals.getLast?, lastPeriod := periodTotals.head? }

structure GrowthEntry where
  fromPeriod : List Char
  toPeriod : List Char
  geography : List Char
  priorValue : ℚ
  currentValue : ℚ
  absoluteChange : ℚ
  growthRate : ℚ
deriving DecidableEq

/-- `parseFloat(x.toFixed(2))` as exact-rational rounding to two decimal
places, ties toward the larger value as the `toFixed` specification picks
the larger candidate. -/
def jsRound2 (q : ℚ) : ℚ := ((Int.floor (q * 100 + 1 / 2) : ℚ)) / 100

structure GrowthAnalysis where
  rates : List GrowthEntry
  totalComparisons : Nat
  averageGrowthRate : Option ℚ
  highestGrowth : Option GrowthEntry
  lowestGrowth : Option GrowthEntry
deriving DecidableEq

/-- Comparator of the final `growthRates.sort`: descending absolute
magnitude of the (rounded) growth rate. -/
def rateAbsGe (a b : GrowthEntry) : Bool := decide (|b.growthRate| ≤ |a.growthRate|)

/-- `calculateGrowthRates` (src/src/time-series-analyzer.js lines
243-309).  `periodList` is `periodData.map(p => p.period)`; `ts` is the
flattened table.  The source sorts the period strings ascending with
`.sort()` and then, for each adjacent pair, takes `periods[i]` as the
`current` period and `periods[i+1]` as the `prior` period, so `current`
is chronologically the older of the two. -/
def calculateGrowthRates (periodList : List (List Char)) (ts : List TSRow) :
    Option GrowthAnalysis :=
  let periods := sortByLe lexLe periodList
  if periods.length < 2 then none
  else
    let rates := (periods.zip periods.tail).flatMap (fun pr =>
      let currentData := ts.filter (fun r => r.period = pr.1)
      let priorData := ts.filter (fun r => r.period = pr.2)
      let geographies := dedupFirst (currentData.map (fun d => d.geography) ++
        priorData.map (fun d => d.geography))
      geographies.filterMap (fun geo =>
        let currentValue := geoSum currentData geo
        let priorValue := geoSum priorData geo
        if priorValue > 0 then
          some { fromPeriod := pr.2, toPeriod := pr.1, geography := geo,
                 priorValue := priorValue, currentValue := currentValue,
                 absoluteChange := currentValue - priorValue,
                 growthRate := jsRound2 ((currentValue - priorValue) / priorValue * 100) }
        else none))
    let sorted := sortByLe rateAbsGe rates
    some { rates := sorted, totalComparisons := sorted.length,
           averageGrowthRate := if 0 < sorted.length then
               some (jsRound2 ((sorted.foldl (fun s r => s + r.growthRate) 0) /
                 (sorted.length : ℚ)))
             else none,
           highestGrowth := sorted.head?, lowestGrowth := sorted.getLast? }

/-- C3: the divide-by-zero guard of the growth computation — every emitted
growth-rate entry records, as `priorValue`, the value sum of its
denominator period (`fromPeriod`, the pair member labelled prior) for its
geography, and that sum is strictly positive, so a geography whose
prior-period sum is 0 is excluded and no rate is ever `Infinity` or
`NaN` (division is only performed on a positive denominator). -/
theorem growthRates_guard (periodList : List (List Char)) (ts : List TSRow)
    (ga : GrowthAnalysis) (h : calculateGrowthRates periodList ts = some ga) :
    ∀ e ∈ ga.rates, 0 < e.priorValue ∧
      e.priorValue = geoSum (ts.filter (fun r => r.period = e.fromPeriod)) e.geography := by
  intro e he
  unfold calculateGrowthRates at h
  by_cases hlen : (sortByLe lexLe periodList).length < 2
  · rw [if_pos hlen] at h
    exact absurd h (by simp)
  · rw [if_neg hlen] at h
    simp only [Option.some.injEq] at h
    rw [← h] at he
    dsimp only at he
    have he2 := (mem_sortByLe rateAbsGe e _).mp he
    obtain ⟨pr, hpr, he3⟩ := List.mem_flatMap.mp he2
    obtain ⟨geo, hgeo, he4⟩ := List.mem_filterMap.mp he3
    by_cases hpos : geoSum (ts.filter (fun r => r.period = pr.2)) geo > 0
    · rw [if_pos hpos] at he4
      simp only [Option.some.injEq] at he4
      rw [← he4]
      exact ⟨hpos, rfl⟩
    · rw [if_neg hpos] at he4
      exact absurd he4 (by simp)

/-- The two-period, single-geography example: revenue 100 in fiscal 2022,
revenue 200 in fiscal 2023. -/
def tsEx : List TSRow :=
  [{ period := ("2022-12-31").data, value := 100, geography := ("Total").data,
     segment := ("Total").data },
   { period := ("2023-12-31").data, value := 200, geography := ("Total").data,
     segment := ("Total").data }]

/-- The period list of the example as `timeSeriesAnalysis` passes it
(newest first). -/
def periodsEx : List (List Char) := [("2023-12-31").data, ("2022-12-31").data]

theorem calculateTrends_example :
    calculateTrends tsEx =
      { direction := "decreasing", overallChange := some (-100),
        overallChangePercent := some (-50),
        periodTotals := [(("2022-12-31").data, 100), (("2023-12-31").data, 200)],
        firstPeriod := some (("2023-12-31").data, 200),
        lastPeriod := some (("2022-12-31").data, 100) } := by
  have h1 : sortByLe lexLe (dedupFirst (tsEx.map (fun r => r.period))) =
      [("2022-12-31").data, ("2023-12-31").data] := by decide
  have h2 : tsEx.filter (fun r => r.period = ("2022-12-31").data) =
      [{ period := ("2022-12-31").data, value := 100, geography := ("Total").data,
         segment := ("Total").data }] := by decide
  have h3 : tsEx.filter (fun r => r.period = ("2023-12-31").data) =
      [{ period := ("2023-12-31").data, value := 200, geography := ("Total").data,
         segment := ("Total").data }] := by decide
  simp only [calculateTrends, h1, h2, h3]
  norm_num [sumVals, List.foldl]

/-- The single growth entry the source emits for the example: it pairs the
2023 period as `prior` and the 2022 period as `current`. -/
def growthEntryEx : GrowthEntry :=
  { fromPeriod := ("2023-12-31").data, toPeriod := ("2022-12-31").data,
    geography := ("Total").data, priorValue := 200, currentValue := 100,
    absoluteChange := -100, growthRate := -50 }

theorem calculateGrowthRates_example :
    calculateGrowthRates periodsEx tsEx =
      some { rates := [growthEntryEx], totalComparisons := 1,
             averageGrowthRate := some (-50),
             highestGrowth := some growthEntryEx,
             lowestGrowth := some growthEntryEx } := by
  have h1 : sortByLe lexLe periodsEx =
      [("2022-12-31").data, ("2023-12-31").data] := by decide
  have h2 : tsEx.filter (fun r => r.period = ("2022-12-31").data) =
      [{ period := ("2022-12-31").data, value := 100, geography := ("Total").data,
         segment := ("Total").data }] := by decide
  have h3 : tsEx.filter (fun r => r.period = ("2023-12-31").data) =
      [{ period := ("2023-12-31").data, value := 200, geography := ("Total").data,
         segment := ("Total").data }] := by decide
  simp only [calculateGrowthRates, h1, h2, h3]
  norm_num [geoSum, sumVals, List.filter, List.foldl, List.flatMap, dedupFirst,
    dedupFirstAux, List.filterMap, sortByLe, insertLe, rateAbsGe, jsRound2,
    growthEntryEx]

/-- C1 (failing run): on a table whose earliest period total is 100 and
latest period total is 200 — a +100% change from earliest to latest, for
which the claim requires direction "increasing" — `calculateTrends`
returns "decreasing" with an overall change of −50%.  The source sorts
the period list ascending but reads `firstTotal` from the *last* index,
so it compares latest → earliest; its own `firstPeriod` field carries the
chronologically latest period (2023) and `lastPeriod` the earliest. -/
theorem calculateTrends_reversed_direction :
    (calculateTrends tsEx).direction = "decreasing" ∧
    (calculateTrends tsEx).overallChangePercent = some (-50) ∧
    (calculateTrends tsEx).firstPeriod = some (("2023-12-31").data, 200) ∧
    (calculateTrends tsEx).lastPeriod = some (("2022-12-31").data, 100) := by
  rw [calculateTrends_example]
  exact ⟨rfl, rfl, rfl, rfl⟩

/-- C2 (failing run): for adjacent periods 2022-12-31 (total 100) and
2023-12-31 (total 200), the claim predicts a single rate of +100% taking
the newer period as current; the source instead emits a single entry
`from` 2023-12-31 `to` 2022-12-31 with rate −50%, because the ascending
`.sort()` makes `periods[i]` the chronologically older period while the
code uses it as the current one and `periods[i+1]` as the prior. -/
theorem calculateGrowthRates_reversed_pairs :
    ∃ ga, calculateGrowthRates periodsEx tsEx = some ga ∧
      ga.rates = [growthEntryEx] ∧
      growthEntryEx.fromPeriod = ("2023-12-31").data ∧
      growthEntryEx.toPeriod = ("2022-12-31").data ∧
      growthEntryEx.priorValue = 200 ∧
      growthEntryEx.currentValue = 100 ∧
      growthEntryEx.growthRate = -50 :=
  ⟨_, calculateGrowthRates_example, rfl, rfl, rfl, rfl, rfl, rfl⟩

/-- Witness for C3 at the concrete example: the emitted entry's
denominator sum is 200 > 0. -/
theorem growthRates_guard_witness :
    0 < growthEntryEx.priorValue ∧
      growthEntryEx.priorValue =
        geoSum (tsEx.filter (fun r => r.period = growthEntryEx.fromPeriod))
          growthEntryEx.geography :=
  growthRates_guard periodsEx tsEx _ calculateGrowthRates_example growthEntryEx
    (by simp)

end AsiaFilings
